import Mathlib

/-!
Verification of the fabcar token-custody chaincode
(`chaincode/fabcar/go/fabcar.go`, plus the pincode variant of
`RequestTokenRequest` from the second chaincode revision).

Modelling conventions, fixed once for the whole development:

* The ledger stub is the repository's own mock (`mockStub` in the external
  test helper): an in-memory map whose `PutState` takes effect immediately
  and is never rolled back.  Every operation is a function from a store to
  a pair of (Go error result, final store); on an error return the final
  store is the store as mutated up to the point of return, exactly as with
  the mock stub.
* Stored values are modelled as a typed sum (`Val`).  Where the Go code
  checks the `json.Unmarshal` error, decoding follows Go's semantics: a
  stored JSON object decodes into ANY of the struct types, matching fields
  by json tag and zero-filling the rest (functions `decParticipant`,
  `decToken`, `decMintRequest`, `decCustReq`, `decCustomer`, one row per
  stored record type, built from the structs' json tags); the decode fails
  only for the bare-number balance record, or when a float amount that is
  not an integer meets an `int` field (`MintRequest.Amount` read from a
  TransferRequest document).  Decode error messages are abstracted to the
  string "json unmarshal error".  Where the Go code ignores the
  `json.Unmarshal` error (the three sites inside `ApproveTokenRequest`),
  the record variable keeps its zero value for a non-matching stored
  record (functions `asTokenRequestD`, `asParticipantD`, `asTokenD`).
* Go `int` is modelled as `Int`, Go `float64` amounts and the bare numeric
  balance records as exact rationals (`Rat`); `int(x)` conversion of a
  float is truncation toward zero (`truncQ`).
* The SHA-256 hex digest used to derive participant addresses is an
  external pure function; the development is parametric in it
  (`H : String -> String`), and theorems that need it assume only that its
  outputs are 64-character hex strings (`IsHexAddr`), which is true of the
  real digest.  Likewise the random UUID of `CreateTransferRequest` is an
  oracle input, required to be fresh as the spec demands of the
  collision-resistant generator.
* The caller context is a pair of client id and MSP id; `VerifyAdmin`
  compares the MSP id with the literal from the source.
-/

/-- Participant record, field for field from the Go struct. -/
structure Participant where
  Name : String
  NetworkAddress : String
  ClientID : String
  Approved : Bool
  PasswordHash : String
  Country : String
  TokenID : String
  TransferIDs : List String
deriving DecidableEq

/-- Token record from the Go struct; `Minted` is the integer mint pool. -/
structure Token where
  TokenID : String
  Owner : String
  Available : Bool
  Minted : Int
  TransferIDs : List String
deriving DecidableEq

/-- TokenRequest record from `fabcar.go` (status is PENDING or APPROVED). -/
structure TokenRequest where
  RequestID : String
  NetworkAddr : String
  Status : String
  TokenID : String
deriving DecidableEq

/-- TokenRequest record of the second chaincode revision, which adds the
pincode field. -/
structure TokenRequestP where
  RequestID : String
  NetworkAddr : String
  Status : String
  TokenID : String
  Pincode : String
deriving DecidableEq

/-- MintRequest record, used both for participant mint requests
(`mintrequest_` keys) and customer mint requests (`custmintreq_` keys). -/
structure MintRequest where
  RequestID : String
  TokenID : String
  RequestedBy : String
  Amount : Int
  Approved : Bool
deriving DecidableEq

/-- Customer sub-account record from the Go struct. -/
structure Customer where
  NetworkAddress : String
  Name : String
  PasswordHash : String
  TokenID : String
  Approved : Bool
  Balance : Int
  TransferIDs : List String
  TokenTransferIDs : List String
deriving DecidableEq

/-- RegisterCustomerRequest record from the Go struct. -/
structure RegisterCustomerRequest where
  RequestID : String
  NetworkAddress : String
  Name : String
  PasswordHash : String
  TokenID : String
  Approved : Bool
deriving DecidableEq

/-- TransferRequest record from the Go struct; the amount is a decimal,
modelled as an exact rational. -/
structure TransferRequest where
  TransferRequestID : String
  TokenID : String
  Amount : Rat
  SenderTransferID : String
  ReceiverTransferID : String
  SenderTokenTransferID : String
  ReceiverTokenTransferID : String
  Status : String
deriving DecidableEq

/-- A stored ledger value: one of the JSON record types, or a bare numeric
balance record (stored by the transfer protocol as a formatted number). -/
inductive Val where
  | part (p : Participant)
  | tok (t : Token)
  | tokReq (r : TokenRequest)
  | tokReqP (r : TokenRequestP)
  | mintReq (r : MintRequest)
  | cust (c : Customer)
  | custReq (r : RegisterCustomerRequest)
  | transfer (r : TransferRequest)
  | bal (q : Rat)
deriving DecidableEq

/-- The ledger state: an association list of key-value pairs, mirroring the
mock stub's `map[string][]byte`. -/
abbrev Store := List (String × Val)

/-- GetState on the model store. -/
def getS : Store → String → Option Val
  | [], _ => none
  | kv :: rest, k => if kv.1 = k then some kv.2 else getS rest k

/-- PutState on the model store (unconditional overwrite). -/
def putS (s : Store) (k : String) (v : Val) : Store :=
  (k, v) :: s.filter (fun kv => kv.1 != k)

/-- Result of an operation: the Go return value and the final store. -/
abbrev Res (α : Type) := Except String α × Store

/-- Caller context: client identity and MSP membership. -/
structure Caller where
  clientID : String
  msp : String
deriving DecidableEq

/-- The fixed token pool size from the source (`const maxTokens = 25`). -/
def maxTokens : Nat := 25

/-- The token keys written by `InitLedger`, in loop order
(`fmt.Sprintf("token_%d", i)` for i = 1..25). -/
def tokenKeyStrings : List String :=
  (List.range maxTokens).map (fun i => "token_" ++ toString (i + 1))

/-- Truncation of a rational toward zero, the semantics of Go's `int(x)`
conversion on a float (`Int.div` is T-division). -/
def truncQ (q : Rat) : Int := q.num.tdiv (q.den : Int)

/-- InitLedger: unconditionally writes the 25 token records, all available,
owner empty, mint pool zero. -/
def initLedger (s : Store) : Res Unit :=
  (Except.ok (),
    tokenKeyStrings.foldl
      (fun st tid => putS st tid (Val.tok ⟨tid, "", true, 0, []⟩)) s)

/-- SubmitRegistration: derives the address as the hex digest of the name
(the digest function `H` is a parameter of the model), refuses to
overwrite an existing record, and stores a fresh unapproved participant
bound to the caller identity. -/
def submitRegistration (H : String → String) (c : Caller) (s : Store)
    (name passwordHash country : String) : Res String :=
  let netAddr := H name
  match getS s netAddr with
  | some _ => (Except.error "participant already exists", s)
  | none =>
      (Except.ok netAddr,
        putS s netAddr
          (Val.part ⟨name, netAddr, c.clientID, false, passwordHash, country, "", []⟩))

/-- Go's `json.Unmarshal` of a stored record into `Participant`
(tags: name, network_address, client_id, approved, password_hash,
country, token_id, transfer_ids): shared tags are copied, the rest stays
at the zero value; only the bare-number balance record fails to decode. -/
def decParticipant : Val → Except String Participant
  | Val.part p => Except.ok p
  | Val.tok t => Except.ok ⟨"", "", "", false, "", "", t.TokenID, t.TransferIDs⟩
  | Val.tokReq r => Except.ok ⟨"", "", "", false, "", "", r.TokenID, []⟩
  | Val.tokReqP r => Except.ok ⟨"", "", "", false, "", "", r.TokenID, []⟩
  | Val.mintReq r => Except.ok ⟨"", "", "", r.Approved, "", "", r.TokenID, []⟩
  | Val.cust c =>
      Except.ok ⟨c.Name, c.NetworkAddress, "", c.Approved, c.PasswordHash, "",
        c.TokenID, c.TransferIDs⟩
  | Val.custReq r =>
      Except.ok ⟨r.Name, r.NetworkAddress, "", r.Approved, r.PasswordHash, "",
        r.TokenID, []⟩
  | Val.transfer r => Except.ok ⟨"", "", "", false, "", "", r.TokenID, []⟩
  | Val.bal _ => Except.error "json unmarshal error"

/-- Go's `json.Unmarshal` of a stored record into `Token`
(tags: token_id, owner, available, minted, transfer_ids). -/
def decToken : Val → Except String Token
  | Val.tok t => Except.ok t
  | Val.part p => Except.ok ⟨p.TokenID, "", false, 0, p.TransferIDs⟩
  | Val.tokReq r => Except.ok ⟨r.TokenID, "", false, 0, []⟩
  | Val.tokReqP r => Except.ok ⟨r.TokenID, "", false, 0, []⟩
  | Val.mintReq r => Except.ok ⟨r.TokenID, "", false, 0, []⟩
  | Val.cust c => Except.ok ⟨c.TokenID, "", false, 0, c.TransferIDs⟩
  | Val.custReq r => Except.ok ⟨r.TokenID, "", false, 0, []⟩
  | Val.transfer r => Except.ok ⟨r.TokenID, "", false, 0, []⟩
  | Val.bal _ => Except.error "json unmarshal error"

/-- Go's `json.Unmarshal` of a stored record into `MintRequest`
(tags: request_id, token_id, requested_by, amount, approved).  The
`amount` tag is shared with TransferRequest's float amount: a JSON
number with a fractional part does not fit the `int` field, so that
decode fails; an integral one is copied. -/
def decMintRequest : Val → Except String MintRequest
  | Val.mintReq r => Except.ok r
  | Val.part p => Except.ok ⟨"", p.TokenID, "", 0, p.Approved⟩
  | Val.tok t => Except.ok ⟨"", t.TokenID, "", 0, false⟩
  | Val.tokReq r => Except.ok ⟨r.RequestID, r.TokenID, "", 0, false⟩
  | Val.tokReqP r => Except.ok ⟨r.RequestID, r.TokenID, "", 0, false⟩
  | Val.cust c => Except.ok ⟨"", c.TokenID, "", 0, c.Approved⟩
  | Val.custReq r => Except.ok ⟨r.RequestID, r.TokenID, "", 0, r.Approved⟩
  | Val.transfer r =>
      if r.Amount.den = 1 then Except.ok ⟨"", r.TokenID, "", r.Amount.num, false⟩
      else Except.error "json unmarshal error"
  | Val.bal _ => Except.error "json unmarshal error"

/-- Go's `json.Unmarshal` of a stored record into `RegisterCustomerRequest`
(tags: request_id, network_address, name, password_hash, token_id,
approved).  TokenRequest's address tag is `network_addr`, which does not
match `network_address`. -/
def decCustReq : Val → Except String RegisterCustomerRequest
  | Val.custReq r => Except.ok r
  | Val.part p =>
      Except.ok ⟨"", p.NetworkAddress, p.Name, p.PasswordHash, p.TokenID, p.Approved⟩
  | Val.tok t => Except.ok ⟨"", "", "", "", t.TokenID, false⟩
  | Val.tokReq r => Except.ok ⟨r.RequestID, "", "", "", r.TokenID, false⟩
  | Val.tokReqP r => Except.ok ⟨r.RequestID, "", "", "", r.TokenID, false⟩
  | Val.mintReq r => Except.ok ⟨r.RequestID, "", "", "", r.TokenID, r.Approved⟩
  | Val.cust c =>
      Except.ok ⟨"", c.NetworkAddress, c.Name, c.PasswordHash, c.TokenID, c.Approved⟩
  | Val.transfer r => Except.ok ⟨"", "", "", "", r.TokenID, false⟩
  | Val.bal _ => Except.error "json unmarshal error"

/-- Go's `json.Unmarshal` of a stored record into `Customer`
(tags: network_address, name, password_hash, token_id, approved, balance,
transfer_ids, token_transfer_ids). -/
def decCustomer : Val → Except String Customer
  | Val.cust c => Except.ok c
  | Val.part p =>
      Except.ok ⟨p.NetworkAddress, p.Name, p.PasswordHash, p.TokenID, p.Approved,
        0, p.TransferIDs, []⟩
  | Val.tok t => Except.ok ⟨"", "", "", t.TokenID, false, 0, t.TransferIDs, []⟩
  | Val.tokReq r => Except.ok ⟨"", "", "", r.TokenID, false, 0, [], []⟩
  | Val.tokReqP r => Except.ok ⟨"", "", "", r.TokenID, false, 0, [], []⟩
  | Val.mintReq r => Except.ok ⟨"", "", "", r.TokenID, r.Approved, 0, [], []⟩
  | Val.custReq r =>
      Except.ok ⟨r.NetworkAddress, r.Name, r.PasswordHash, r.TokenID, r.Approved,
        0, [], []⟩
  | Val.transfer r => Except.ok ⟨"", "", "", r.TokenID, false, 0, [], []⟩
  | Val.bal _ => Except.error "json unmarshal error"

/-- RequestTokenRequest (main revision, no pincode): overwrites the token
request for the address with a fresh PENDING one when the stored record,
decoded as a Participant, matches the supplied details.  The decode is
Go's lenient one: only the bare-number balance record fails it. -/
def requestTokenRequest (s : Store)
    (name networkAddress passwordHash country : String) : Res Unit :=
  match getS s networkAddress with
  | none => (Except.error "participant not found", s)
  | some v =>
      match decParticipant v with
      | Except.error e => (Except.error e, s)
      | Except.ok p =>
          if p.Name ≠ name ∨ p.PasswordHash ≠ passwordHash ∨ p.Country ≠ country then
            (Except.error "participant details do not match", s)
          else
            let reqID := "tokenrequest_" ++ networkAddress
            (Except.ok (),
              putS s reqID (Val.tokReq ⟨reqID, networkAddress, "PENDING", ""⟩))

/-- Zero-value fallback for the unmarshal whose error `ApproveTokenRequest`
ignores (line 210 of the source). -/
def asTokenRequestD : Val → TokenRequest
  | Val.tokReq r => r
  | _ => ⟨"", "", "", ""⟩

/-- Zero-value fallback for the ignored unmarshal at line 236. -/
def asParticipantD : Val → Participant
  | Val.part p => p
  | _ => ⟨"", "", "", false, "", "", "", []⟩

/-- Zero-value fallback for the ignored unmarshal at line 250. -/
def asTokenD : Val → Token
  | Val.tok t => t
  | _ => ⟨"", "", false, 0, []⟩

/-- The scan of `findAvailableToken` over the fixed key list: skips missing
keys, fails on a value that does not decode as a Token, and returns the
first available token id, or the empty string if none. -/
def findAvailTok (s : Store) : List String → Except String String
  | [] => Except.ok ""
  | tid :: rest =>
      match getS s tid with
      | none => findAvailTok s rest
      | some (Val.tok t) => if t.Available then Except.ok tid else findAvailTok s rest
      | some _ => Except.error "json unmarshal error"

/-- findAvailableToken from the source: first available token id in the
fixed order token_1 .. token_25, empty string if none. -/
def findAvailableToken (s : Store) : Except String String :=
  findAvailTok s tokenKeyStrings

/-- ApproveTokenRequest: admin-gated; approves the PENDING request for the
address, allocates the first available token, updates the participant and
the token.  The three writes happen in source order; the two unmarshals
whose errors the source ignores use the zero-value fallbacks. -/
def approveTokenRequest (c : Caller) (s : Store) (networkAddress : String) :
    Res Unit :=
  if c.msp ≠ "Org1MSP" then (Except.error "access denied: admin only", s)
  else
    let reqID := "tokenrequest_" ++ networkAddress
    match getS s reqID with
    | none => (Except.error "token request not found", s)
    | some v =>
        let r := asTokenRequestD v
        if r.Status ≠ "PENDING" then (Except.error "request already processed", s)
        else
          match findAvailableToken s with
          | Except.error e => (Except.error e, s)
          | Except.ok tokenID =>
              if tokenID = "" then (Except.error "no tokens available", s)
              else
                let s1 := putS s reqID
                  (Val.tokReq { r with Status := "APPROVED", TokenID := tokenID })
                match getS s1 networkAddress with
                | none => (Except.error "participant not found", s1)
                | some pv =>
                    let p := asParticipantD pv
                    let s2 := putS s1 networkAddress
                      (Val.part { p with TokenID := tokenID, Approved := true })
                    match getS s2 tokenID with
                    | none => (Except.error "token not found", s2)
                    | some tv =>
                        let t := asTokenD tv
                        (Except.ok (),
                          putS s2 tokenID
                            (Val.tok { t with Owner := networkAddress, Available := false }))

/-- RequestMintCoins: password and caller-identity gated; requires the
participant's token to exist and be owned by the address; overwrites the
mint request for (token, address) with a fresh unapproved one. -/
def requestMintCoins (c : Caller) (s : Store)
    (networkAddress passwordHash : String) (amount : Int) : Res Unit :=
  match getS s networkAddress with
  | none => (Except.error "participant not found", s)
  | some (Val.part participant) =>
      if participant.PasswordHash ≠ passwordHash then
        (Except.error "invalid password", s)
      else if participant.ClientID ≠ c.clientID then
        (Except.error "unauthorized caller", s)
      else
        match getS s participant.TokenID with
        | none => (Except.error "token not found", s)
        | some (Val.tok token) =>
            if token.Owner ≠ networkAddress then
              (Except.error "caller is not token owner", s)
            else
              let reqKey := "mintrequest_" ++ participant.TokenID ++ "_" ++ networkAddress
              (Except.ok (),
                putS s reqKey
                  (Val.mintReq ⟨reqKey, participant.TokenID, networkAddress, amount, false⟩))
        | some _ => (Except.error "json unmarshal error", s)
  | some _ => (Except.error "json unmarshal error", s)

/-- ApproveMintRequest: admin-gated; decodes whatever record sits at the
request id as a MintRequest (Go's lenient unmarshal), marks it approved
(first write), then decodes the record at its token id as a Token and
credits the mint pool (second write).  The token lookup happens after the
first write, exactly as in the source. -/
def approveMintRequest (c : Caller) (s : Store) (requestID : String) : Res Unit :=
  if c.msp ≠ "Org1MSP" then (Except.error "access denied: admin only", s)
  else
    match getS s requestID with
    | none => (Except.error "mint request not found", s)
    | some v =>
        match decMintRequest v with
        | Except.error e => (Except.error e, s)
        | Except.ok mr =>
            if mr.Approved then (Except.error "mint request already approved", s)
            else
              let s1 := putS s requestID (Val.mintReq { mr with Approved := true })
              match getS s1 mr.TokenID with
              | none => (Except.error "token not found", s1)
              | some tv =>
                  match decToken tv with
                  | Except.error e => (Except.error e, s1)
                  | Except.ok token =>
                      (Except.ok (),
                        putS s1 mr.TokenID
                          (Val.tok { token with Minted := token.Minted + mr.Amount }))

/-- RegisterCustomer: requires an existing, owned token; rejects a
duplicate registration request for the same (address, token) pair;
otherwise stores a fresh pending request.  A stored value that does not
decode as a Token yields the same "invalid or unowned token" failure as in
the source, where the decode error and the empty-owner test share one
branch. -/
def registerCustomer (s : Store)
    (networkAddress name passwordHash tokenID : String) : Res Unit :=
  match getS s tokenID with
  | none => (Except.error "token not found", s)
  | some (Val.tok token) =>
      if token.Owner = "" then (Except.error "invalid or unowned token", s)
      else
        let reqID := "custreq_" ++ networkAddress ++ "_" ++ tokenID
        match getS s reqID with
        | some _ => (Except.error "customer registration request already exists", s)
        | none =>
            (Except.ok (),
              putS s reqID
                (Val.custReq ⟨reqID, networkAddress, name, passwordHash, tokenID, false⟩))
  | some _ => (Except.error "invalid or unowned token", s)

/-- ApproveCustomerRegistration: owner-gated; decodes the record at the
request id as a RegisterCustomerRequest and the record at its token id as
a Token (both via Go's lenient unmarshal), then marks the request approved
and creates the customer record with balance zero. -/
def approveCustomerRegistration (s : Store)
    (requestID ownerNetworkAddress : String) : Res Unit :=
  match getS s requestID with
  | none => (Except.error "customer registration request not found", s)
  | some v =>
      match decCustReq v with
      | Except.error e => (Except.error e, s)
      | Except.ok req =>
          match getS s req.TokenID with
          | none => (Except.error "token not found", s)
          | some tv =>
              match decToken tv with
              | Except.error e => (Except.error e, s)
              | Except.ok token =>
                  if token.Owner ≠ ownerNetworkAddress then
                    (Except.error "caller is not token owner", s)
                  else if req.Approved then (Except.error "already approved", s)
                  else
                    let s1 := putS s requestID
                      (Val.custReq { req with Approved := true })
                    let customerKey :=
                      "customer_" ++ req.NetworkAddress ++ "_" ++ req.TokenID
                    (Except.ok (),
                      putS s1 customerKey
                        (Val.cust ⟨req.NetworkAddress, req.Name, req.PasswordHash,
                          req.TokenID, true, 0, [], []⟩))

/-- CustomerRequestMint: requires the customer record to exist; overwrites
the customer mint request with a fresh unapproved one.  The request's
requested-by field comes from the stored customer record, the token id
from the argument, as in the source. -/
def customerRequestMint (s : Store)
    (networkAddress tokenID : String) (amount : Int) : Res Unit :=
  let customerKey := "customer_" ++ networkAddress ++ "_" ++ tokenID
  match getS s customerKey with
  | none => (Except.error "customer not registered or approved for token", s)
  | some (Val.cust customer) =>
      let requestID := "custmintreq_" ++ customer.NetworkAddress ++ "_" ++ tokenID
      (Except.ok (),
        putS s requestID
          (Val.mintReq ⟨requestID, tokenID, customer.NetworkAddress, amount, false⟩))
  | some _ => (Except.error "json unmarshal error", s)

/-- The InsufficientFunds message of ApproveCustomerMint, with the two
numbers formatted as Go's %d does. -/
def custMintInsufficientMsg (available requested : Int) : String :=
  "insufficient minted coin balance on token: available " ++ toString available ++
    ", requested " ++ toString requested

/-- ApproveCustomerMint: owner-gated; decodes the records at the request
id, its token id and the derived customer key via Go's lenient unmarshal;
checks owner, approval state and pool sufficiency before any write, then
writes the approved request, the decremented token, and finally the
credited customer.  The customer lookup happens after the first two
writes, exactly as in the source. -/
def approveCustomerMint (s : Store) (requestID ownerNetworkAddress : String) :
    Res Unit :=
  match getS s requestID with
  | none => (Except.error "mint request not found", s)
  | some v =>
      match decMintRequest v with
      | Except.error e => (Except.error e, s)
      | Except.ok mintReq =>
          match getS s mintReq.TokenID with
          | none => (Except.error "token not found", s)
          | some tv =>
              match decToken tv with
              | Except.error e => (Except.error e, s)
              | Except.ok token =>
                  if token.Owner ≠ ownerNetworkAddress then
                    (Except.error "caller is not token owner", s)
                  else if mintReq.Approved then
                    (Except.error "mint request already approved", s)
                  else if token.Minted < mintReq.Amount then
                    (Except.error
                      (custMintInsufficientMsg token.Minted mintReq.Amount), s)
                  else
                    let s1 := putS s requestID
                      (Val.mintReq { mintReq with Approved := true })
                    let s2 := putS s1 mintReq.TokenID
                      (Val.tok { token with Minted := token.Minted - mintReq.Amount })
                    let customerKey :=
                      "customer_" ++ mintReq.RequestedBy ++ "_" ++ mintReq.TokenID
                    match getS s2 customerKey with
                    | none => (Except.error "customer not found", s2)
                    | some cv =>
                        match decCustomer cv with
                        | Except.error e => (Except.error e, s2)
                        | Except.ok cust =>
                            (Except.ok (),
                              putS s2 customerKey
                                (Val.cust { cust with
                                  Balance := cust.Balance + mintReq.Amount }))

/-- CreateTransferRequest: stores a fresh transfer request in state
PendingOwnerApproval.  The random UUID is an oracle argument `u`; the
decimal amount string is modelled as its parsed rational value (a
malformed amount fails before any write in the source, so nothing the
claims mention is lost). -/
def createTransferRequest (s : Store)
    (senderParticipantID receiverParticipantID senderTokenTransferID
      receiverTokenTransferID tokenID : String) (amount : Rat) (u : String) :
    Res String :=
  let transferRequestID := "transfer_" ++ u
  (Except.ok transferRequestID,
    putS s transferRequestID
      (Val.transfer ⟨transferRequestID, tokenID, amount, senderParticipantID,
        receiverParticipantID, senderTokenTransferID, receiverTokenTransferID,
        "PendingOwnerApproval"⟩))

/-- ApproveTransferByOwner: requires status PendingOwnerApproval and the
approver to equal the stored sender reference; advances the status. -/
def approveTransferByOwner (s : Store) (transferRequestID approver : String) :
    Res Unit :=
  match getS s transferRequestID with
  | none => (Except.error "transfer request not found", s)
  | some (Val.transfer request) =>
      if request.Status ≠ "PendingOwnerApproval" then
        (Except.error "transfer request not pending owner approval", s)
      else if request.SenderTransferID ≠ approver then
        (Except.error "approver is not the sender participant", s)
      else
        (Except.ok (),
          putS s transferRequestID
            (Val.transfer { request with Status := "PendingReceiverApproval" }))
  | some _ => (Except.error "json unmarshal error", s)

/-- ApproveTransferByReceiver: requires status PendingReceiverApproval and
the approver to equal the token's current owner; on insufficient sender
balance commits the Rejected status and still reports the failure;
otherwise debits the balance record, credits the mint pool by the amount
truncated toward zero, and completes the request.  A stored value at the
sender key that is not a bare balance is the ParseFloat failure of the
source. -/
def approveTransferByReceiver (s : Store) (transferRequestID approver : String) :
    Res Unit :=
  match getS s transferRequestID with
  | none => (Except.error "transfer request not found", s)
  | some (Val.transfer request) =>
      if request.Status ≠ "PendingReceiverApproval" then
        (Except.error "transfer request not pending receiver approval", s)
      else
        match getS s request.TokenID with
        | none => (Except.error "token not found", s)
        | some (Val.tok token) =>
            if token.Owner ≠ approver then
              (Except.error "approver is not the token owner (receiver)", s)
            else
              match getS s request.SenderTransferID with
              | none => (Except.error "sender balance not found", s)
              | some (Val.bal senderBalance) =>
                  if senderBalance < request.Amount then
                    (Except.error "insufficient funds for transfer",
                      putS s transferRequestID
                        (Val.transfer { request with Status := "Rejected" }))
                  else
                    let s1 := putS s request.SenderTransferID
                      (Val.bal (senderBalance - request.Amount))
                    let s2 := putS s1 request.TokenID
                      (Val.tok { token with Minted := token.Minted + truncQ request.Amount })
                    (Except.ok (),
                      putS s2 transferRequestID
                        (Val.transfer { request with Status := "Completed" }))
              | some _ => (Except.error "invalid sender balance", s)
        | some _ => (Except.error "json unmarshal error", s)
  | some _ => (Except.error "json unmarshal error", s)

/-- RequestTokenRequest of the second chaincode revision: same detail
match, then validates only the LENGTH of the pincode against 6 before
storing the PENDING request carrying the pincode. -/
def requestTokenRequestP (s : Store)
    (name networkAddress passwordHash country pincode : String) : Res Unit :=
  match getS s networkAddress with
  | none => (Except.error "participant not found", s)
  | some (Val.part p) =>
      if p.Name ≠ name ∨ p.PasswordHash ≠ passwordHash ∨ p.Country ≠ country then
        (Except.error "participant details do not match", s)
      else if pincode.length ≠ 6 then
        (Except.error "invalid pincode: must be 6 digits", s)
      else
        let reqID := "tokenrequest_" ++ networkAddress
        (Except.ok (),
          putS s reqID
            (Val.tokReqP ⟨reqID, networkAddress, "PENDING", "", pincode⟩))
  | some _ => (Except.error "json unmarshal error", s)

/-- JSON string-valued fields of each stored record, by json tag, used by
the rich-query selectors.  Number, boolean and array fields cannot equal a
selector's string value and are omitted; a bare balance record is not a
JSON document. -/
def fieldOf : Val → String → Option String
  | Val.part p, f =>
      if f = "name" then some p.Name
      else if f = "network_address" then some p.NetworkAddress
      else if f = "client_id" then some p.ClientID
      else if f = "password_hash" then some p.PasswordHash
      else if f = "country" then some p.Country
      else if f = "token_id" then some p.TokenID
      else none
  | Val.tok t, f =>
      if f = "token_id" then some t.TokenID
      else if f = "owner" then some t.Owner
      else none
  | Val.tokReq r, f =>
      if f = "request_id" then some r.RequestID
      else if f = "network_addr" then some r.NetworkAddr
      else if f = "status" then some r.Status
      else if f = "token_id" then some r.TokenID
      else none
  | Val.tokReqP r, f =>
      if f = "request_id" then some r.RequestID
      else if f = "network_addr" then some r.NetworkAddr
      else if f = "status" then some r.Status
      else if f = "token_id" then some r.TokenID
      else if f = "pincode" then some r.Pincode
      else none
  | Val.mintReq r, f =>
      if f = "request_id" then some r.RequestID
      else if f = "token_id" then some r.TokenID
      else if f = "requested_by" then some r.RequestedBy
      else none
  | Val.cust c, f =>
      if f = "network_address" then some c.NetworkAddress
      else if f = "name" then some c.Name
      else if f = "password_hash" then some c.PasswordHash
      else if f = "token_id" then some c.TokenID
      else none
  | Val.custReq r, f =>
      if f = "request_id" then some r.RequestID
      else if f = "network_address" then some r.NetworkAddress
      else if f = "name" then some r.Name
      else if f = "password_hash" then some r.PasswordHash
      else if f = "token_id" then some r.TokenID
      else none
  | Val.transfer r, f =>
      if f = "transfer_request_id" then some r.TransferRequestID
      else if f = "token_id" then some r.TokenID
      else if f = "sender_transfer_id" then some r.SenderTransferID
      else if f = "receiver_transfer_id" then some r.ReceiverTransferID
      else if f = "sender_token_transfer_id" then some r.SenderTokenTransferID
      else if f = "receiver_token_transfer_id" then some r.ReceiverTokenTransferID
      else if f = "status" then some r.Status
      else none
  | Val.bal _, _ => none

/-- GetParticipantTransferHistory: rich query for documents whose sender
or receiver transfer id equals the given reference, decoded as transfer
requests (documents that fail to decode are skipped, as in the source). -/
def getParticipantTransferHistory (s : Store) (pid : String) :
    List TransferRequest :=
  (s.filter (fun kv =>
      fieldOf kv.2 "sender_transfer_id" == some pid ||
      fieldOf kv.2 "receiver_transfer_id" == some pid)).filterMap
    (fun kv => match kv.2 with | Val.transfer tr => some tr | _ => none)

/-- Return shape of GetTokenParticipantsAndTransactions. -/
structure TokenPartView where
  tokenID : String
  participantCount : Nat
  participants : List Participant
  participantTransfers : List (String × List TransferRequest)
deriving DecidableEq

/-- GetTokenParticipantsAndTransactions: owner-gated; queries for
documents whose `token_transfer_id` field equals the token id, decodes
the matches as participants, and joins each with its transfer history. -/
def getTokenParticipantsAndTransactions (s : Store)
    (tokenID callerTransferID : String) : Except String TokenPartView :=
  match getS s tokenID with
  | none => Except.error "token not found"
  | some (Val.tok token) =>
      if token.Owner ≠ callerTransferID then
        Except.error "access denied: caller is not the token owner"
      else
        let matched := (s.filter (fun kv =>
            fieldOf kv.2 "token_transfer_id" == some tokenID)).map (fun kv => kv.2)
        let participants := matched.filterMap
          (fun v => match v with | Val.part p => some p | _ => none)
        Except.ok ⟨tokenID, participants.length, participants,
          participants.map (fun p =>
            (p.NetworkAddress, getParticipantTransferHistory s p.NetworkAddress))⟩
  | some _ => Except.error "json unmarshal error"

/-- One state-changing invocation of the contract.  The flag selects
whether InitLedger invocations are admitted (it has no guard in the
source, so the full system uses `true`; the `false` instance is the
system with initialization ruled out, used to state a repaired pool
invariant).  Failing invocations are steps too: with the mock stub their
writes up to the failure point persist.  Read-only operations perform no
writes and are omitted.  The final constructor is modelled from the spec:
bare balance records at sender reference keys are seeded externally
(spec sections 3 and 8); per the disjoint key-namespace rule they are
fresh keys outside the token pool. -/
inductive Step (H : String → String) : Bool → Store → Store → Prop where
  | init (s : Store) :
      Step H true s (initLedger s).2
  | submitReg (b : Bool) (s : Store) (c : Caller) (name passwordHash country : String) :
      Step H b s (submitRegistration H c s name passwordHash country).2
  | reqTok (b : Bool) (s : Store) (name networkAddress passwordHash country : String) :
      Step H b s (requestTokenRequest s name networkAddress passwordHash country).2
  | appTok (b : Bool) (s : Store) (c : Caller) (networkAddress : String) :
      Step H b s (approveTokenRequest c s networkAddress).2
  | reqMint (b : Bool) (s : Store) (c : Caller) (networkAddress passwordHash : String)
      (amount : Int) :
      Step H b s (requestMintCoins c s networkAddress passwordHash amount).2
  | appMint (b : Bool) (s : Store) (c : Caller) (requestID : String) :
      Step H b s (approveMintRequest c s requestID).2
  | regCust (b : Bool) (s : Store) (networkAddress name passwordHash tokenID : String) :
      Step H b s (registerCustomer s networkAddress name passwordHash tokenID).2
  | appCustReg (b : Bool) (s : Store) (requestID ownerNetworkAddress : String) :
      Step H b s (approveCustomerRegistration s requestID ownerNetworkAddress).2
  | custReqMint (b : Bool) (s : Store) (networkAddress tokenID : String) (amount : Int) :
      Step H b s (customerRequestMint s networkAddress tokenID amount).2
  | appCustMint (b : Bool) (s : Store) (requestID ownerNetworkAddress : String) :
      Step H b s (approveCustomerMint s requestID ownerNetworkAddress).2
  | createTR (b : Bool) (s : Store)
      (sp rp stt rtt tokenID : String) (amount : Rat) (u : String)
      (hu : getS s ("transfer_" ++ u) = none) :
      Step H b s (createTransferRequest s sp rp stt rtt tokenID amount u).2
  | appTROwner (b : Bool) (s : Store) (transferRequestID approver : String) :
      Step H b s (approveTransferByOwner s transferRequestID approver).2
  | appTRReceiver (b : Bool) (s : Store) (transferRequestID approver : String) :
      Step H b s (approveTransferByReceiver s transferRequestID approver).2
  | seedBal (b : Bool) (s : Store) (k : String) (q : Rat)
      (hk : getS s k = none) (htk : k ∉ tokenKeyStrings) :
      Step H b s (putS s k (Val.bal q))

/-- Reachability from a base state by contract invocations. -/
inductive ReachFrom (H : String → String) (b : Bool) (base : Store) : Store → Prop where
  | refl : ReachFrom H b base base
  | step {s s2 : Store} : ReachFrom H b base s → Step H b s s2 → ReachFrom H b base s2

/-- States reachable from the empty ledger. -/
def Reach0 (H : String → String) : Store → Prop := ReachFrom H true []

/-- The ledger right after InitLedger on the empty state. -/
def initState : Store := (initLedger []).2

/-- States reachable from an initialized ledger. -/
def ReachInit (H : String → String) : Store → Prop := ReachFrom H true initState

/-- States reachable from an initialized ledger without re-invoking
InitLedger. -/
def ReachNoInit (H : String → String) : Store → Prop := ReachFrom H false initState

/-- Hex characters, for the characterization of SHA-256 hex digests. -/
def isHexChar (c : Char) : Bool :=
  c.isDigit || ('a' ≤ c && c ≤ 'f')

/-- A 64-character lowercase-hex string, the shape of every address the
real SHA-256 digest produces. -/
def IsHexAddr (a : String) : Prop :=
  a.data.length = 64 ∧ ∀ c ∈ a.data, isHexChar c = true

/-- The assumption the reachability theorems make about the digest
function: every output is a 64-character hex string. -/
def HexDigest (H : String → String) : Prop := ∀ n, IsHexAddr (H n)

/-- Exactly six decimal digits: the pincode format the spec promises
(modelled from the spec's words, for comparison with the code's check). -/
def SixDigitCode (c : String) : Prop :=
  c.data.length = 6 ∧ ∀ ch ∈ c.data, ch.isDigit = true

/-- A concrete digest stand-in for the counterexample traces (they do not
rely on the hex-digest assumption). -/
def hashA : String → String := fun n => "addr" ++ n

/-- The admin caller used by the concrete traces. -/
def adminCaller : Caller := ⟨"cid", "Org1MSP"⟩

/-- A concrete digest stand-in satisfying the hex-digest assumption, for
the witnesses of the reachability theorems. -/
def hexH : String → String := fun _ => String.mk (List.replicate 64 'a')

/-- The address `hexH` assigns to every name (64 times 'a'). -/
def aAddr : String := String.mk (List.replicate 64 'a')

/-- Witness trace under the hex digest: register A on the initialized
ledger. -/
def wA1 : Store := (submitRegistration hexH adminCaller initState "A" "pw" "US").2

/-- Witness trace under the hex digest: A files a token request. -/
def wA2 : Store := (requestTokenRequest wA1 "A" aAddr "pw" "US").2

/-- Witness trace under the hex digest: the admin approves A; A owns
token_1. -/
def wA3 : Store := (approveTokenRequest adminCaller wA2 aAddr).2

/-- Witness trace under the hex digest: A requests minting of 50 coins. -/
def wA4 : Store := (requestMintCoins adminCaller wA3 aAddr "pw" 50).2

/-- Witness trace under the hex digest: the admin approves the mint
request; token_1's pool is 50. -/
def wA5 : Store :=
  (approveMintRequest adminCaller wA4 ("mintrequest_token_1_" ++ aAddr)).2

/-- Witness trace under the hex digest: customer custC asks to register on
token_1. -/
def wA6 : Store := (registerCustomer wA5 "custC" "C" "cpw" "token_1").2

/-- Witness trace under the hex digest: the owner approves custC; the
customer record exists with balance 0. -/
def wA7 : Store :=
  (approveCustomerRegistration wA6 "custreq_custC_token_1" aAddr).2

/-- Witness trace under the hex digest: custC requests a mint of 30. -/
def wA8 : Store := (customerRequestMint wA7 "custC" "token_1" 30).2

/-- Trace: register participant A on an initialized ledger. -/
def trA1 : Store := (submitRegistration hashA adminCaller initState "A" "pw" "US").2

/-- Trace: A requests a token. -/
def trA2 : Store := (requestTokenRequest trA1 "A" "addrA" "pw" "US").2

/-- Trace: the admin approves A's token request; A owns token_1. -/
def trA3 : Store := (approveTokenRequest adminCaller trA2 "addrA").2

/-- Trace: A requests minting of 50 coins. -/
def trA4 : Store := (requestMintCoins adminCaller trA3 "addrA" "pw" 50).2

/-- Trace: the admin approves the mint request; token_1 pool is 50. -/
def trA5 : Store := (approveMintRequest adminCaller trA4 "mintrequest_token_1_addrA").2

/-- Trace: A resubmits a mint request of 30, overwriting the approved one. -/
def trA6 : Store := (requestMintCoins adminCaller trA5 "addrA" "pw" 30).2

/-- Trace: InitLedger is invoked again on top of A's allocation. -/
def trB1 : Store := (initLedger trA3).2

/-- Trace: participant B registers after the re-initialization. -/
def trB2 : Store := (submitRegistration hashA adminCaller trB1 "B" "pw" "US").2

/-- Trace: B requests a token. -/
def trB3 : Store := (requestTokenRequest trB2 "B" "addrB" "pw" "US").2

/-- Trace: the admin approves B; B is assigned token_1 again. -/
def trB4 : Store := (approveTokenRequest adminCaller trB3 "addrB").2

/-- A concrete ledger for the transfer-completion witness: a pending
transfer of 80 from balance record "sb" against token_1. -/
def wStore1 : Store :=
  [("transfer_u", Val.transfer ⟨"transfer_u", "token_1", 80, "sb", "rb", "", "",
      "PendingReceiverApproval"⟩),
    ("token_1", Val.tok ⟨"token_1", "own", false, 5, []⟩),
    ("sb", Val.bal 200)]

/-- The same ledger with balance 50, for the insufficient-funds witness. -/
def wStore2 : Store :=
  [("transfer_u", Val.transfer ⟨"transfer_u", "token_1", 80, "sb", "rb", "", "",
      "PendingReceiverApproval"⟩),
    ("token_1", Val.tok ⟨"token_1", "own", false, 5, []⟩),
    ("sb", Val.bal 50)]

/-- Key k starts with the given namespace marker. -/
def hasPref (pre k : String) : Prop := ∃ t, k = pre ++ t

/-- A token record is available and unowned, or unavailable and owned. -/
def tokPartition (t : Token) : Prop :=
  (t.Available = true ∧ t.Owner = "") ∨ (t.Available = false ∧ t.Owner ≠ "")

/-- Does the token record at key k show available? -/
def availBool (s : Store) (k : String) : Bool :=
  match getS s k with
  | some (Val.tok t) => t.Available
  | _ => false

/-- Does the token record at key k show a non-empty owner? -/
def ownedBool (s : Store) (k : String) : Bool :=
  match getS s k with
  | some (Val.tok t) => t.Owner != ""
  | _ => false

/-- Number of available tokens in the fixed pool. -/
def countAvail (s : Store) : Nat :=
  (tokenKeyStrings.filter (fun k => availBool s k)).length

/-- Number of owned tokens in the fixed pool. -/
def countOwned (s : Store) : Nat :=
  (tokenKeyStrings.filter (fun k => ownedBool s k)).length

/-- The token-pool partition invariant: each of the 25 token records
exists and is either available and unowned, or unavailable and owned. -/
def Pinv (s : Store) : Prop :=
  ∀ k, k ∈ tokenKeyStrings → ∃ t, getS s k = some (Val.tok t) ∧
    ((t.Available = true ∧ t.Owner = "") ∨ (t.Available = false ∧ t.Owner ≠ ""))

/-- The final store of every operation is the initial store extended by a
sequence of PutState writes (no operation ever deletes a key). -/
inductive PutChain (s : Store) : Store → Prop where
  | base : PutChain s s
  | step {s2 : Store} (k : String) (v : Val) :
      PutChain s s2 → PutChain s (putS s2 k v)

theorem getS_putS_same (s : Store) (k : String) (v : Val) :
    getS (putS s k v) k = some v := by
  simp [getS, putS]

theorem getS_filter_ne (s : Store) (k a : String) (h : a ≠ k) :
    getS (s.filter (fun kv => kv.1 != k)) a = getS s a := by
  induction s with
  | nil => rfl
  | cons kv rest ih =>
    by_cases hk : kv.1 = k
    · simp [List.filter_cons, hk, getS, Ne.symm h, ih]
    · by_cases ha : kv.1 = a <;> simp [List.filter_cons, hk, getS, ha, ih, h]

theorem getS_putS_ne (s : Store) (k a : String) (v : Val) (h : a ≠ k) :
    getS (putS s k v) a = getS s a := by
  have hk : k ≠ a := fun e => h e.symm
  simp [putS, getS, hk]
  exact getS_filter_ne s k a h

theorem getS_foldl_putS (f : String → Val) (L : List String) (hnd : L.Nodup)
    (s : Store) (k : String) :
    getS (L.foldl (fun st tid => putS st tid (f tid)) s) k =
      if k ∈ L then some (f k) else getS s k := by
  induction L generalizing s with
  | nil => simp
  | cons a L ih =>
    have hnd2 : L.Nodup := hnd.of_cons
    simp only [List.foldl_cons]
    rw [ih hnd2]
    by_cases hk : k ∈ L
    · simp [hk, List.mem_cons]
    · by_cases ha : k = a
      · subst ha
        simp [hk, getS_putS_same]
      · simp [hk, ha, getS_putS_ne _ _ _ _ ha]

theorem tokenKeyStrings_nodup : tokenKeyStrings.Nodup := by decide

theorem no_field_token_transfer_id (v : Val) :
    fieldOf v "token_transfer_id" = none := by
  cases v <;> simp [fieldOf]

theorem reach0_initState : Reach0 hashA initState :=
  ReachFrom.step ReachFrom.refl (Step.init [])

theorem reach0_trA1 : Reach0 hashA trA1 :=
  reach0_initState.step (Step.submitReg true initState adminCaller "A" "pw" "US")

theorem reach0_trA2 : Reach0 hashA trA2 :=
  reach0_trA1.step (Step.reqTok true trA1 "A" "addrA" "pw" "US")

theorem reach0_trA3 : Reach0 hashA trA3 :=
  reach0_trA2.step (Step.appTok true trA2 adminCaller "addrA")

theorem reach0_trA6 : Reach0 hashA trA6 :=
  (((reach0_trA3.step (Step.reqMint true trA3 adminCaller "addrA" "pw" 50)).step
    (Step.appMint true trA4 adminCaller "mintrequest_token_1_addrA")).step
    (Step.reqMint true trA5 adminCaller "addrA" "pw" 30))

theorem reachInit_trB4 : ReachInit hashA trB4 :=
  ((((((ReachFrom.refl.step
    (Step.submitReg true initState adminCaller "A" "pw" "US")).step
    (Step.reqTok true trA1 "A" "addrA" "pw" "US")).step
    (Step.appTok true trA2 adminCaller "addrA")).step
    (Step.init trA3)).step
    (Step.submitReg true trB1 adminCaller "B" "pw" "US")).step
    (Step.reqTok true trB2 "B" "addrB" "pw" "US")).step
    (Step.appTok true trB3 adminCaller "addrB")

theorem byReceiver_shape (s : Store) (reqK approver : String) :
    (approveTransferByReceiver s reqK approver).2 = s ∨
    (approveTransferByReceiver s reqK approver).1
      = Except.error "insufficient funds for transfer" ∨
    (approveTransferByReceiver s reqK approver).1 = Except.ok () := by
  unfold approveTransferByReceiver
  repeat' split
  all_goals first
    | exact Or.inl rfl
    | exact Or.inr (Or.inl rfl)
    | exact Or.inr (Or.inr rfl)

/-- C10: InitLedger is not restricted to first-time initialization:
invoked from any state whatsoever it succeeds, overwrites all 25 token
records token_1..token_25 to owner empty, available true and mint pool 0,
and leaves every other key unchanged. -/
theorem initLedger_reinitializes_unconditionally (s : Store) :
    (initLedger s).1 = Except.ok () ∧
    (∀ k, k ∈ tokenKeyStrings →
      getS (initLedger s).2 k = some (Val.tok ⟨k, "", true, 0, []⟩)) ∧
    (∀ k, k ∉ tokenKeyStrings → getS (initLedger s).2 k = getS s k) := by
  refine ⟨rfl, ?_, ?_⟩
  · intro k hk
    show getS (tokenKeyStrings.foldl
      (fun st tid => putS st tid (Val.tok ⟨tid, "", true, 0, []⟩)) s) k = _
    rw [getS_foldl_putS (fun tid => Val.tok ⟨tid, "", true, 0, []⟩)
      tokenKeyStrings tokenKeyStrings_nodup s k]
    simp [hk]
  · intro k hk
    show getS (tokenKeyStrings.foldl
      (fun st tid => putS st tid (Val.tok ⟨tid, "", true, 0, []⟩)) s) k = _
    rw [getS_foldl_putS (fun tid => Val.tok ⟨tid, "", true, 0, []⟩)
      tokenKeyStrings tokenKeyStrings_nodup s k]
    simp [hk]

/-- Witness for C10 at a concrete state in which token_3 is owned and has
a nonzero pool: re-initialization erases both, and an unrelated key
survives. -/
theorem initLedger_reinitializes_unconditionally_witness :
    getS (initLedger [("token_3", Val.tok ⟨"token_3", "own", false, 7, []⟩),
        ("other", Val.bal 1)]).2 "token_3"
      = some (Val.tok ⟨"token_3", "", true, 0, []⟩) ∧
    getS (initLedger [("token_3", Val.tok ⟨"token_3", "own", false, 7, []⟩),
        ("other", Val.bal 1)]).2 "other" = some (Val.bal 1) :=
  ⟨(initLedger_reinitializes_unconditionally _).2.1 "token_3" (by decide),
    by
      rw [(initLedger_reinitializes_unconditionally _).2.2 "other" (by decide)]
      rfl⟩

/-- C1: on a transfer request in status PendingReceiverApproval whose
token's current owner is the supplied approver, with sender balance B and
amount A at most B, ApproveTransferByReceiver succeeds, the balance record
becomes B - A, the mint pool grows by A truncated toward zero, the status
becomes Completed, and nothing else changes. -/
theorem approveByReceiver_sufficient_completes
    (s : Store) (reqK approver : String) (r : TransferRequest) (t : Token) (B : Rat)
    (hreq : getS s reqK = some (Val.transfer r))
    (hst : r.Status = "PendingReceiverApproval")
    (htok : getS s r.TokenID = some (Val.tok t))
    (hown : t.Owner = approver)
    (hbal : getS s r.SenderTransferID = some (Val.bal B))
    (hle : r.Amount ≤ B) :
    (approveTransferByReceiver s reqK approver).1 = Except.ok () ∧
    getS (approveTransferByReceiver s reqK approver).2 r.SenderTransferID
      = some (Val.bal (B - r.Amount)) ∧
    getS (approveTransferByReceiver s reqK approver).2 r.TokenID
      = some (Val.tok { t with Minted := t.Minted + truncQ r.Amount }) ∧
    getS (approveTransferByReceiver s reqK approver).2 reqK
      = some (Val.transfer { r with Status := "Completed" }) ∧
    (∀ k, k ≠ r.SenderTransferID → k ≠ r.TokenID → k ≠ reqK →
      getS (approveTransferByReceiver s reqK approver).2 k = getS s k) := by
  have hsb_tk : r.SenderTransferID ≠ r.TokenID := by
    intro e; rw [e, htok] at hbal; cases hbal
  have hrq_tk : reqK ≠ r.TokenID := by
    intro e; rw [e, htok] at hreq; cases hreq
  have hrq_sb : reqK ≠ r.SenderTransferID := by
    intro e; rw [e, hbal] at hreq; cases hreq
  have hnotlt : ¬ B < r.Amount := not_lt.mpr hle
  simp only [approveTransferByReceiver, hreq, hst, htok, hown, hbal]
  simp only [ne_eq, not_true_eq_false, if_false, hnotlt]
  refine ⟨trivial, ?_, ?_, ?_, ?_⟩
  · rw [getS_putS_ne _ _ _ _ hrq_sb.symm]
    rw [getS_putS_ne _ _ _ _ hsb_tk]
    exact getS_putS_same _ _ _
  · rw [getS_putS_ne _ _ _ _ hrq_tk.symm]
    exact getS_putS_same _ _ _
  · exact getS_putS_same _ _ _
  · intro k h1 h2 h3
    rw [getS_putS_ne _ _ _ _ h3, getS_putS_ne _ _ _ _ h2, getS_putS_ne _ _ _ _ h1]

/-- Witness for C1: a concrete transfer of 80 against a balance of 200 on
a pool of 5 completes, leaving balance 120 and pool 85. -/
theorem approveByReceiver_sufficient_completes_witness :
    (approveTransferByReceiver wStore1 "transfer_u" "own").1 = Except.ok () ∧
    getS (approveTransferByReceiver wStore1 "transfer_u" "own").2 "sb"
      = some (Val.bal (200 - 80)) ∧
    getS (approveTransferByReceiver wStore1 "transfer_u" "own").2 "token_1"
      = some (Val.tok ⟨"token_1", "own", false, 5 + truncQ 80, []⟩) :=
  have h := approveByReceiver_sufficient_completes wStore1 "transfer_u" "own"
    ⟨"transfer_u", "token_1", 80, "sb", "rb", "", "", "PendingReceiverApproval"⟩
    ⟨"token_1", "own", false, 5, []⟩ 200 (by rfl) (by rfl) (by rfl) (by rfl) (by rfl)
    (by norm_num)
  ⟨h.1, h.2.1, h.2.2.1⟩

/-- C2 (amended): on a PendingReceiverApproval transfer whose token owner
is the approver, a sender balance strictly below the amount makes
ApproveTransferByReceiver report the insufficient-funds failure while
committing exactly one state change, the Rejected status; and every other
failure of ApproveTransferByReceiver leaves the state unchanged.  (The
original claim's universal over every operation is refuted by the
counterexample: ApproveCustomerMint can fail after committing writes.) -/
theorem approveByReceiver_insufficient_commits_only_rejection :
    (∀ (s : Store) (reqK approver : String) (r : TransferRequest) (t : Token) (B : Rat),
      getS s reqK = some (Val.transfer r) →
      r.Status = "PendingReceiverApproval" →
      getS s r.TokenID = some (Val.tok t) →
      t.Owner = approver →
      getS s r.SenderTransferID = some (Val.bal B) →
      B < r.Amount →
      (approveTransferByReceiver s reqK approver).1
        = Except.error "insufficient funds for transfer" ∧
      getS (approveTransferByReceiver s reqK approver).2 reqK
        = some (Val.transfer { r with Status := "Rejected" }) ∧
      (∀ k, k ≠ reqK →
        getS (approveTransferByReceiver s reqK approver).2 k = getS s k)) ∧
    (∀ (s : Store) (reqK approver e : String),
      (approveTransferByReceiver s reqK approver).1 = Except.error e →
      e ≠ "insufficient funds for transfer" →
      (approveTransferByReceiver s reqK approver).2 = s) := by
  constructor
  · intro s reqK approver r t B hreq hst htok hown hbal hlt
    simp only [approveTransferByReceiver, hreq, hst, htok, hown, hbal]
    simp only [ne_eq, not_true_eq_false, if_false, hlt, if_true]
    exact ⟨trivial, getS_putS_same _ _ _, fun k hk => getS_putS_ne _ _ _ _ hk⟩
  · intro s reqK approver e he hne
    rcases byReceiver_shape s reqK approver with h | h | h
    · exact h
    · rw [he] at h
      cases h
      exact absurd rfl hne
    · rw [he] at h
      cases h

/-- Witness for the amended C2: the concrete ledger with balance 50 and
amount 80 yields the dual outcome, and a lookup failure on an empty
ledger changes nothing. -/
theorem approveByReceiver_insufficient_witness :
    ((approveTransferByReceiver wStore2 "transfer_u" "own").1
        = Except.error "insufficient funds for transfer" ∧
      getS (approveTransferByReceiver wStore2 "transfer_u" "own").2 "transfer_u"
        = some (Val.transfer ⟨"transfer_u", "token_1", 80, "sb", "rb", "", "",
            "Rejected"⟩) ∧
      getS (approveTransferByReceiver wStore2 "transfer_u" "own").2 "sb"
        = getS wStore2 "sb") ∧
    (approveTransferByReceiver [] "transfer_u" "own").2 = [] := by
  constructor
  · have h := approveByReceiver_insufficient_commits_only_rejection.1 wStore2
      "transfer_u" "own"
      ⟨"transfer_u", "token_1", 80, "sb", "rb", "", "", "PendingReceiverApproval"⟩
      ⟨"token_1", "own", false, 5, []⟩ 50 (by rfl) (by rfl) (by rfl) (by rfl) (by rfl)
      (by norm_num)
    exact ⟨h.1, h.2.1, h.2.2 "sb" (by decide)⟩
  · exact approveByReceiver_insufficient_commits_only_rejection.2 []
      "transfer_u" "own" "transfer request not found" (by rfl) (by decide)

/-- Counterexample for C2 as stated: from a reachable ledger, the
"customer not found" failure of ApproveCustomerMint (an operation failure
other than the insufficient-funds exception) commits two state changes:
the mint request is marked approved and the token's pool drops from 50 to
20. -/
theorem approveCustomerMint_partial_commit_counterexample :
    Reach0 hashA trA6 ∧
    (approveCustomerMint trA6 "mintrequest_token_1_addrA" "addrA").1
      = Except.error "customer not found" ∧
    getS trA6 "mintrequest_token_1_addrA"
      = some (Val.mintReq ⟨"mintrequest_token_1_addrA", "token_1", "addrA", 30, false⟩) ∧
    getS trA6 "token_1" = some (Val.tok ⟨"token_1", "addrA", false, 50, []⟩) ∧
    getS (approveCustomerMint trA6 "mintrequest_token_1_addrA" "addrA").2
        "mintrequest_token_1_addrA"
      = some (Val.mintReq ⟨"mintrequest_token_1_addrA", "token_1", "addrA", 30, true⟩) ∧
    getS (approveCustomerMint trA6 "mintrequest_token_1_addrA" "addrA").2 "token_1"
      = some (Val.tok ⟨"token_1", "addrA", false, 20, []⟩) :=
  ⟨reach0_trA6, by rfl, by rfl, by rfl, by rfl, by rfl⟩

/-- Counterexample for C5 as stated: re-invoking InitLedger resets the
pool, after which the admin assigns token_1 a second time; the reachable
state trB4 has two distinct participants both assigned token_1. -/
theorem duplicate_token_assignment_counterexample :
    ReachInit hashA trB4 ∧
    getS trB4 "addrA"
      = some (Val.part ⟨"A", "addrA", "cid", true, "pw", "US", "token_1", []⟩) ∧
    getS trB4 "addrB"
      = some (Val.part ⟨"B", "addrB", "cid", true, "pw", "US", "token_1", []⟩) ∧
    ("addrA" : String) ≠ "addrB" :=
  ⟨reachInit_trB4, by rfl, by rfl, by decide⟩

/-- C8 (amended): for a participant whose stored details match, the
pincode variant of RequestTokenRequest fails with the Validation error
exactly when the supplied code's LENGTH differs from 6 (the digits are
not checked); on success it writes a PENDING TokenRequest carrying the
code and changes nothing else. -/
theorem requestTokenRequestP_validates_length_only
    (s : Store) (name addr pw country pc : String) (p : Participant)
    (hget : getS s addr = some (Val.part p))
    (hn : p.Name = name) (hp : p.PasswordHash = pw) (hc : p.Country = country) :
    (((requestTokenRequestP s name addr pw country pc).1
        = Except.error "invalid pincode: must be 6 digits") ↔ pc.length ≠ 6) ∧
    (pc.length = 6 →
      (requestTokenRequestP s name addr pw country pc).1 = Except.ok () ∧
      getS (requestTokenRequestP s name addr pw country pc).2 ("tokenrequest_" ++ addr)
        = some (Val.tokReqP ⟨"tokenrequest_" ++ addr, addr, "PENDING", "", pc⟩) ∧
      (∀ k, k ≠ "tokenrequest_" ++ addr →
        getS (requestTokenRequestP s name addr pw country pc).2 k = getS s k)) := by
  have hres : requestTokenRequestP s name addr pw country pc =
      (if pc.length ≠ 6 then (Except.error "invalid pincode: must be 6 digits", s)
       else (Except.ok (), putS s ("tokenrequest_" ++ addr)
          (Val.tokReqP ⟨"tokenrequest_" ++ addr, addr, "PENDING", "", pc⟩))) := by
    simp only [requestTokenRequestP, hget, hn, hp, hc]
    simp only [ne_eq, not_true_eq_false, false_or, if_false]
  rw [hres]
  by_cases hl : pc.length = 6
  · rw [if_neg (fun h2 => h2 hl)]
    exact ⟨⟨fun h => Except.noConfusion h, fun h => absurd hl h⟩,
      fun _ => ⟨rfl, getS_putS_same _ _ _, fun k hk => getS_putS_ne _ _ _ _ hk⟩⟩
  · rw [if_pos hl]
    exact ⟨⟨fun _ => hl, fun _ => rfl⟩, fun h => absurd h hl⟩

/-- Witness for the amended C8 at a concrete participant and the code
"123456". -/
theorem requestTokenRequestP_validates_length_only_witness :
    (¬ ((requestTokenRequestP [("a", Val.part ⟨"A", "a", "cid", false, "pw", "US", "", []⟩)]
        "A" "a" "pw" "US" "123456").1 = Except.error "invalid pincode: must be 6 digits")) ∧
    (requestTokenRequestP [("a", Val.part ⟨"A", "a", "cid", false, "pw", "US", "", []⟩)]
        "A" "a" "pw" "US" "123456").1 = Except.ok () := by
  have h := requestTokenRequestP_validates_length_only
    [("a", Val.part ⟨"A", "a", "cid", false, "pw", "US", "", []⟩)]
    "A" "a" "pw" "US" "123456"
    ⟨"A", "a", "cid", false, "pw", "US", "", []⟩ (by rfl) rfl rfl rfl
  constructor
  · intro he
    exact (h.1.mp he) (by decide)
  · exact (h.2 (by decide)).1

/-- Counterexample for C8 as stated: the six-character non-digit code
"abcdef" is not a six-digit code, yet the operation succeeds instead of
failing with the Validation error. -/
theorem pincode_length_only_counterexample :
    (requestTokenRequestP [("a", Val.part ⟨"A", "a", "cid", false, "pw", "US", "", []⟩)]
        "A" "a" "pw" "US" "abcdef").1 = Except.ok () ∧
    ¬ SixDigitCode "abcdef" :=
  ⟨by rfl, fun h => absurd h.2 (by decide)⟩

/-- C9: for any state and token whose owner equals the supplied caller
reference, the combined view returns no participants at all
(participantCount 0), because its matching predicate filters on the field
token_transfer_id, which no stored record defines. -/
theorem tokenParticipantsView_empty
    (s : Store) (tokenID caller : String) (t : Token)
    (hget : getS s tokenID = some (Val.tok t)) (hown : t.Owner = caller) :
    getTokenParticipantsAndTransactions s tokenID caller
      = Except.ok ⟨tokenID, 0, [], []⟩ := by
  simp only [getTokenParticipantsAndTransactions, hget, hown, ne_eq,
    not_true_eq_false, if_false]
  have hfil : s.filter
      (fun kv => fieldOf kv.2 "token_transfer_id" == some tokenID) = [] := by
    rw [List.filter_eq_nil_iff]
    intro kv _
    rw [no_field_token_transfer_id kv.2]
    simp
  rw [hfil]
  rfl

/-- Witness for C9 at a concrete owned token with a participant record in
the store. -/
theorem tokenParticipantsView_empty_witness :
    getTokenParticipantsAndTransactions
        [("token_1", Val.tok ⟨"token_1", "own", false, 5, []⟩),
          ("a", Val.part ⟨"A", "a", "cid", true, "pw", "US", "token_1", []⟩)]
        "token_1" "own"
      = Except.ok ⟨"token_1", 0, [], []⟩ :=
  tokenParticipantsView_empty _ "token_1" "own"
    ⟨"token_1", "own", false, 5, []⟩ (by rfl) rfl

theorem str_ne_of_take_ne (P Q : String) (n : Nat)
    (h1 : P.data.take n ≠ Q.data.take n) (h2 : n ≤ P.data.length)
    (h3 : n ≤ Q.data.length) (a b : String) : P ++ a ≠ Q ++ b := by
  intro h
  apply h1
  have hd := congrArg String.data h
  rw [String.data_append, String.data_append] at hd
  have := congrArg (List.take n) hd
  rwa [List.take_append_of_le_length h2, List.take_append_of_le_length h3] at this

theorem hasPref_ne_of_take_ne (P Q : String) (n : Nat)
    (h1 : P.data.take n ≠ Q.data.take n) (h2 : n ≤ P.data.length)
    (h3 : n ≤ Q.data.length) (k k2 : String)
    (hk : hasPref P k) (hk2 : hasPref Q k2) : k ≠ k2 := by
  rcases hk with ⟨a, rfl⟩
  rcases hk2 with ⟨b, rfl⟩
  exact str_ne_of_take_ne P Q n h1 h2 h3 a b

theorem pref_ne_tokenKey (pre : String) (n : Nat)
    (hAll : ∀ tk ∈ tokenKeyStrings, pre.data.take n ≠ tk.data.take n ∧ n ≤ tk.data.length)
    (hn : n ≤ pre.data.length) (a tk : String) (htk : tk ∈ tokenKeyStrings) :
    pre ++ a ≠ tk := by
  intro h
  rcases hAll tk htk with ⟨h1, h3⟩
  apply h1
  have hd := congrArg String.data h
  rw [String.data_append] at hd
  have := congrArg (List.take n) hd
  rwa [List.take_append_of_le_length hn] at this

theorem tokenrequest_ne_tokenKey (a tk : String) (htk : tk ∈ tokenKeyStrings) :
    "tokenrequest_" ++ a ≠ tk :=
  pref_ne_tokenKey "tokenrequest_" 6 (by decide) (by decide) a tk htk

theorem mintrequest_ne_tokenKey (a tk : String) (htk : tk ∈ tokenKeyStrings) :
    "mintrequest_" ++ a ≠ tk :=
  pref_ne_tokenKey "mintrequest_" 1 (by decide) (by decide) a tk htk

theorem custmintreq_ne_tokenKey (a tk : String) (htk : tk ∈ tokenKeyStrings) :
    "custmintreq_" ++ a ≠ tk :=
  pref_ne_tokenKey "custmintreq_" 1 (by decide) (by decide) a tk htk

theorem custreq_ne_tokenKey (a tk : String) (htk : tk ∈ tokenKeyStrings) :
    "custreq_" ++ a ≠ tk :=
  pref_ne_tokenKey "custreq_" 1 (by decide) (by decide) a tk htk

theorem customer_ne_tokenKey (a tk : String) (htk : tk ∈ tokenKeyStrings) :
    "customer_" ++ a ≠ tk :=
  pref_ne_tokenKey "customer_" 1 (by decide) (by decide) a tk htk

theorem transfer_ne_tokenKey (a tk : String) (htk : tk ∈ tokenKeyStrings) :
    "transfer_" ++ a ≠ tk :=
  pref_ne_tokenKey "transfer_" 2 (by decide) (by decide) a tk htk

theorem hexAddr_ne_pref (k pre x : String) (hk : IsHexAddr k)
    (hbad : ∃ c ∈ pre.data, isHexChar c = false) : k ≠ pre ++ x := by
  intro h
  rcases hbad with ⟨c, hc, hcf⟩
  have hmem : c ∈ k.data := by
    rw [h, String.data_append]
    exact List.mem_append_left _ hc
  rw [hk.2 c hmem] at hcf
  cases hcf

theorem hexAddr_ne_tokenKey (k tk : String) (hk : IsHexAddr k)
    (htk : tk ∈ tokenKeyStrings) : k ≠ tk := by
  intro h
  have h8 : tk.data.length ≤ 8 :=
    (by decide : ∀ t2 ∈ tokenKeyStrings, t2.data.length ≤ 8) tk htk
  rw [h] at hk
  have h64 := hk.1
  omega

theorem hexAddr_ne_empty {a : String} (h : IsHexAddr a) : a ≠ "" := by
  intro e
  rw [e] at h
  exact absurd h.1 (by decide)

theorem append_tokenKey_absorb (p q ti tj : String)
    (hlen : ti.data.length + 1 = tj.data.length) (hhd : tj.data.head? = some 't')
    (h : (p.data ++ "_".data) ++ ti.data = (q.data ++ "_".data) ++ tj.data) : False := by
  rcases List.append_eq_append_iff.mp h with ⟨a2, hc, hx⟩ | ⟨c2, hp, hy⟩
  · have l1 := congrArg List.length hx
    rw [List.length_append] at l1
    omega
  · have l2 := congrArg List.length hy
    rw [List.length_append] at l2
    have hc1 : c2.length = 1 := by omega
    rcases List.length_eq_one.mp hc1 with ⟨c, rfl⟩
    have hlast : c = '_' := by
      have hgl := congrArg List.getLast? hp
      have e1 : p.data ++ "_".data = p.data ++ ['_'] := rfl
      have e2 : q.data ++ "_".data = q.data ++ ['_'] := rfl
      rw [e1, e2, List.getLast?_concat] at hgl
      rw [show q.data ++ ['_'] ++ [c] = (q.data ++ ['_']) ++ [c] from rfl,
        List.getLast?_concat] at hgl
      exact (Option.some.inj hgl).symm
    subst hlast
    rw [hy] at hhd
    simp at hhd

theorem underscore_tokenKey_inj (p q ti tj : String)
    (hti : ti ∈ tokenKeyStrings) (htj : tj ∈ tokenKeyStrings)
    (h : p ++ "_" ++ ti = q ++ "_" ++ tj) : p = q ∧ ti = tj := by
  have hd := congrArg String.data h
  rw [String.data_append, String.data_append, String.data_append,
    String.data_append] at hd
  have hfacts := (by decide : ∀ tk ∈ tokenKeyStrings,
    (tk.data.length = 7 ∨ tk.data.length = 8) ∧ tk.data.head? = some 't')
  rcases (hfacts ti hti) with ⟨hli, hhi⟩
  rcases (hfacts tj htj) with ⟨hlj, hhj⟩
  have hlen : ti.data.length = tj.data.length := by
    rcases hli with h7 | h8 <;> rcases hlj with g7 | g8
    · rw [h7, g7]
    · exact absurd (append_tokenKey_absorb p q ti tj (by omega) hhj hd) id
    · exact absurd (append_tokenKey_absorb q p tj ti (by omega) hhi hd.symm) id
    · rw [h8, g8]
  have h2 := List.append_inj' hd hlen
  have h3 := List.append_inj' h2.1 (by rfl)
  refine ⟨String.ext h3.1, String.ext h2.2⟩

theorem getS_ne_of_vals {s : Store} {k1 k2 : String} {v1 v2 : Val}
    (h1 : getS s k1 = some v1) (h2 : getS s k2 = some v2) (hv : v1 ≠ v2) :
    k1 ≠ k2 := by
  intro e
  rw [e, h2] at h1
  exact hv (Option.some.inj h1.symm)

theorem pref_append_ne_self (pre a : String) (h : pre.data.length ≠ 0) :
    pre ++ a ≠ a := by
  intro e
  have hd := congrArg String.data e
  rw [String.data_append] at hd
  have hl := congrArg List.length hd
  rw [List.length_append] at hl
  omega

theorem customerKey_assoc (na tid : String) :
    "customer_" ++ na ++ "_" ++ tid = "customer_" ++ (na ++ ("_" ++ tid)) := by
  rw [String.append_assoc, String.append_assoc]

theorem custmintreqKey_assoc (na tid : String) :
    "custmintreq_" ++ na ++ "_" ++ tid = "custmintreq_" ++ (na ++ ("_" ++ tid)) := by
  rw [String.append_assoc, String.append_assoc]

theorem custreqKey_assoc (na tid : String) :
    "custreq_" ++ na ++ "_" ++ tid = "custreq_" ++ (na ++ ("_" ++ tid)) := by
  rw [String.append_assoc, String.append_assoc]

theorem mintreqKey_assoc (tid na : String) :
    "mintrequest_" ++ tid ++ "_" ++ na = "mintrequest_" ++ (tid ++ ("_" ++ na)) := by
  rw [String.append_assoc, String.append_assoc]

theorem pref_notin_tokenKeys (pre x : String)
    (hno : ∀ a tk, tk ∈ tokenKeyStrings → pre ++ a ≠ tk) :
    pre ++ x ∉ tokenKeyStrings := fun hm => hno x _ hm rfl

theorem str_append_left_cancel {p a b : String} (h : p ++ a = p ++ b) : a = b := by
  have hd := congrArg String.data h
  rw [String.data_append, String.data_append] at hd
  exact String.ext (List.append_cancel_left hd)

theorem vals_agree {s : Store} {k : String} {v1 v2 : Val}
    (h1 : getS s k = some v1) (h2 : getS s k = some v2) : v1 = v2 := by
  rw [h1] at h2
  exact Option.some.inj h2

theorem findAvailTok_ok (s : Store) (L : List String) (tid : String)
    (hok : findAvailTok s L = Except.ok tid) (hne : tid ≠ "") :
    tid ∈ L ∧ ∃ t, getS s tid = some (Val.tok t) ∧ t.Available = true := by
  induction L with
  | nil =>
    unfold findAvailTok at hok
    exact absurd (Except.ok.inj hok).symm hne
  | cons a L ih =>
    unfold findAvailTok at hok
    cases hv : getS s a with
    | none =>
      rw [hv] at hok
      rcases ih hok with ⟨hm, rest⟩
      exact ⟨List.mem_cons_of_mem a hm, rest⟩
    | some v =>
      rw [hv] at hok
      cases v with
      | tok t =>
        dsimp only at hok
        by_cases hav : t.Available = true
        · rw [if_pos hav] at hok
          cases hok
          exact ⟨List.mem_cons_self _ _, t, hv, hav⟩
        · rw [if_neg hav] at hok
          rcases ih hok with ⟨hm, rest⟩
          exact ⟨List.mem_cons_of_mem a hm, rest⟩
      | part p => exact absurd hok (fun e => Except.noConfusion e)
      | tokReq r => exact absurd hok (fun e => Except.noConfusion e)
      | tokReqP r => exact absurd hok (fun e => Except.noConfusion e)
      | mintReq r => exact absurd hok (fun e => Except.noConfusion e)
      | cust c => exact absurd hok (fun e => Except.noConfusion e)
      | custReq r => exact absurd hok (fun e => Except.noConfusion e)
      | transfer r => exact absurd hok (fun e => Except.noConfusion e)
      | bal q => exact absurd hok (fun e => Except.noConfusion e)

theorem putChain_trans {s s2 s3 : Store} (h1 : PutChain s s2)
    (h2 : PutChain s2 s3) : PutChain s s3 := by
  induction h2 with
  | base => exact h1
  | step k v _ ih => exact PutChain.step k v ih

theorem putChain_foldl_tok (L : List String) (s : Store) :
    PutChain s (L.foldl
      (fun st tid => putS st tid (Val.tok ⟨tid, "", true, 0, []⟩)) s) := by
  induction L generalizing s with
  | nil => exact PutChain.base
  | cons a L ih =>
    simp only [List.foldl_cons]
    exact putChain_trans (PutChain.step a _ PutChain.base) (ih _)

theorem putChain_defined {s s2 : Store} (h : PutChain s s2) (k : String)
    (hd : ∃ v, getS s k = some v) : ∃ v, getS s2 k = some v := by
  induction h with
  | base => exact hd
  | step k2 v2 _ ih =>
    rcases ih with ⟨v3, hv3⟩
    by_cases e : k = k2
    · subst e
      exact ⟨v2, getS_putS_same _ _ _⟩
    · rw [getS_putS_ne _ _ _ _ e]
      exact ⟨v3, hv3⟩

theorem step_putChain {H : String → String} {b : Bool} {s s2 : Store}
    (hst : Step H b s s2) : PutChain s s2 := by
  cases hst with
  | init s => exact putChain_foldl_tok tokenKeyStrings s
  | submitReg b s c name pw country =>
    unfold submitRegistration
    dsimp only
    cases getS s (H name) with
    | some v => exact PutChain.base
    | none => exact PutChain.step _ _ PutChain.base
  | reqTok b s name na pw country =>
    unfold requestTokenRequest
    try dsimp only
    repeat' split
    all_goals try dsimp only
    all_goals repeat' split
    all_goals first
      | exact PutChain.base
      | exact PutChain.step _ _ PutChain.base
  | appTok b s c na =>
    unfold approveTokenRequest
    try dsimp only
    repeat' split
    all_goals try dsimp only
    all_goals repeat' split
    all_goals first
      | exact PutChain.base
      | exact PutChain.step _ _ PutChain.base
      | exact PutChain.step _ _ (PutChain.step _ _ PutChain.base)
      | exact PutChain.step _ _ (PutChain.step _ _ (PutChain.step _ _ PutChain.base))
  | reqMint b s c na pw amount =>
    unfold requestMintCoins
    try dsimp only
    repeat' split
    all_goals try dsimp only
    all_goals repeat' split
    all_goals first
      | exact PutChain.base
      | exact PutChain.step _ _ PutChain.base
  | appMint b s c reqID =>
    unfold approveMintRequest
    try dsimp only
    repeat' split
    all_goals try dsimp only
    all_goals repeat' split
    all_goals first
      | exact PutChain.base
      | exact PutChain.step _ _ PutChain.base
      | exact PutChain.step _ _ (PutChain.step _ _ PutChain.base)
  | regCust b s na name pw tid =>
    unfold registerCustomer
    try dsimp only
    repeat' split
    all_goals try dsimp only
    all_goals repeat' split
    all_goals first
      | exact PutChain.base
      | exact PutChain.step _ _ PutChain.base
  | appCustReg b s reqID owner =>
    unfold approveCustomerRegistration
    try dsimp only
    repeat' split
    all_goals try dsimp only
    all_goals repeat' split
    all_goals first
      | exact PutChain.base
      | exact PutChain.step _ _ PutChain.base
      | exact PutChain.step _ _ (PutChain.step _ _ PutChain.base)
  | custReqMint b s na tid amount =>
    unfold customerRequestMint
    try dsimp only
    repeat' split
    all_goals try dsimp only
    all_goals repeat' split
    all_goals first
      | exact PutChain.base
      | exact PutChain.step _ _ PutChain.base
  | appCustMint b s reqID owner =>
    unfold approveCustomerMint
    try dsimp only
    repeat' split
    all_goals try dsimp only
    all_goals repeat' split
    all_goals first
      | exact PutChain.base
      | exact PutChain.step _ _ PutChain.base
      | exact PutChain.step _ _ (PutChain.step _ _ PutChain.base)
      | exact PutChain.step _ _ (PutChain.step _ _ (PutChain.step _ _ PutChain.base))
  | createTR b s sp rp stt rtt tid amount u hu =>
    exact PutChain.step _ _ PutChain.base
  | appTROwner b s id approver =>
    unfold approveTransferByOwner
    try dsimp only
    repeat' split
    all_goals try dsimp only
    all_goals repeat' split
    all_goals first
      | exact PutChain.base
      | exact PutChain.step _ _ PutChain.base
  | appTRReceiver b s id approver =>
    unfold approveTransferByReceiver
    try dsimp only
    repeat' split
    all_goals try dsimp only
    all_goals repeat' split
    all_goals first
      | exact PutChain.base
      | exact PutChain.step _ _ PutChain.base
      | exact PutChain.step _ _ (PutChain.step _ _ (PutChain.step _ _ PutChain.base))
  | seedBal b s k q hk htk => exact PutChain.step _ _ PutChain.base

theorem reach_defined {H : String → String} {b : Bool} {base s : Store}
    (hr : ReachFrom H b base s) (k : String)
    (hd : ∃ v, getS base k = some v) : ∃ v, getS s k = some v := by
  induction hr with
  | refl => exact hd
  | step hr2 hst ih => exact putChain_defined (step_putChain hst) k ih

theorem filter_complement_length (l : List String) (p q : String → Bool)
    (h : ∀ x ∈ l, q x = !(p x)) :
    (l.filter p).length + (l.filter q).length = l.length := by
  induction l with
  | nil => rfl
  | cons a l ih =>
    have ha := h a (List.mem_cons_self _ _)
    have ih2 := ih (fun x hx => h x (List.mem_cons_of_mem a hx))
    cases hp : p a with
    | true =>
      rw [hp] at ha
      simp [List.filter_cons, hp, ha]
      omega
    | false =>
      rw [hp] at ha
      simp [List.filter_cons, hp, ha]
      omega

theorem getS_initState (k : String) :
    getS initState k
      = if k ∈ tokenKeyStrings then some (Val.tok ⟨k, "", true, 0, []⟩)
        else none := by
  show getS (tokenKeyStrings.foldl
    (fun st tid => putS st tid (Val.tok ⟨tid, "", true, 0, []⟩)) []) k = _
  rw [getS_foldl_putS (fun tid => Val.tok ⟨tid, "", true, 0, []⟩)
    tokenKeyStrings tokenKeyStrings_nodup [] k]
  rfl

theorem reachInit_token_defined {H : String → String} {s : Store}
    (hr : ReachInit H s) (k : String) (hk : k ∈ tokenKeyStrings) :
    ∃ v, getS s k = some v := by
  apply reach_defined hr k
  rw [getS_initState, if_pos hk]
  exact ⟨_, rfl⟩

theorem hexH_digest : HexDigest hexH := by
  intro n
  show IsHexAddr (String.mk (List.replicate 64 'a'))
  exact ⟨by decide, by decide⟩

theorem tokenKey_ne_empty : ∀ tk ∈ tokenKeyStrings, tk ≠ "" := by decide

theorem findAvailTok_none (s : Store) (L : List String)
    (hwell : ∀ x ∈ L, getS s x = none ∨ ∃ t, getS s x = some (Val.tok t))
    (hno : ∀ x ∈ L, availBool s x = false) :
    findAvailTok s L = Except.ok "" := by
  induction L with
  | nil => rfl
  | cons a L ih =>
    unfold findAvailTok
    have ha := hno a (List.mem_cons_self _ _)
    rcases hwell a (List.mem_cons_self _ _) with hnone | ⟨t, htok⟩
    · rw [hnone]
      exact ih (fun x hx => hwell x (List.mem_cons_of_mem a hx))
        (fun x hx => hno x (List.mem_cons_of_mem a hx))
    · rw [htok]
      unfold availBool at ha
      rw [htok] at ha
      dsimp only at ha ⊢
      rw [if_neg (by rw [ha]; exact fun e => Bool.noConfusion e)]
      exact ih (fun x hx => hwell x (List.mem_cons_of_mem a hx))
        (fun x hx => hno x (List.mem_cons_of_mem a hx))

theorem findAvailTok_first (s : Store) (L1 L2 : List String) (tid : String)
    (hwell : ∀ x ∈ L1, getS s x = none ∨ ∃ t, getS s x = some (Val.tok t))
    (hno : ∀ x ∈ L1, availBool s x = false)
    (htid : availBool s tid = true) :
    findAvailTok s (L1 ++ tid :: L2) = Except.ok tid := by
  induction L1 with
  | nil =>
    rw [List.nil_append]
    unfold findAvailTok
    unfold availBool at htid
    cases hv : getS s tid with
    | none =>
      rw [hv] at htid
      cases htid
    | some v =>
      rw [hv] at htid
      cases v with
      | tok t =>
        dsimp only at htid ⊢
        rw [if_pos htid]
      | part p => cases htid
      | tokReq r => cases htid
      | tokReqP r => cases htid
      | mintReq r => cases htid
      | cust c => cases htid
      | custReq r => cases htid
      | transfer r => cases htid
      | bal q => cases htid
  | cons a L1 ih =>
    rw [List.cons_append]
    unfold findAvailTok
    have ha := hno a (List.mem_cons_self _ _)
    rcases hwell a (List.mem_cons_self _ _) with hnone | ⟨t, htok⟩
    · rw [hnone]
      exact ih (fun x hx => hwell x (List.mem_cons_of_mem a hx))
        (fun x hx => hno x (List.mem_cons_of_mem a hx))
    · rw [htok]
      unfold availBool at ha
      rw [htok] at ha
      dsimp only at ha ⊢
      rw [if_neg (by rw [ha]; exact fun e => Bool.noConfusion e)]
      exact ih (fun x hx => hwell x (List.mem_cons_of_mem a hx))
        (fun x hx => hno x (List.mem_cons_of_mem a hx))

theorem availBool_true_elim {s : Store} {tid : String}
    (htid : availBool s tid = true) :
    ∃ t, getS s tid = some (Val.tok t) ∧ t.Available = true := by
  unfold availBool at htid
  cases hv : getS s tid with
  | none =>
    rw [hv] at htid
    cases htid
  | some v =>
    rw [hv] at htid
    cases v with
    | tok t => exact ⟨t, rfl, htid⟩
    | part p => cases htid
    | tokReq r => cases htid
    | tokReqP r => cases htid
    | mintReq r => cases htid
    | cust c => cases htid
    | custReq r => cases htid
    | transfer r => cases htid
    | bal q => cases htid

/-- C6 (confirmed): for an admin caller and a participant address holding
a PENDING TokenRequest, on a ledger whose 25 pool keys are absent or hold
Token records (as the claim\'s allocation flow guarantees),
ApproveTokenRequest fails with "no tokens available", changing nothing,
when no token is available; otherwise it allocates exactly the first
available token in the fixed order token_1..token_25 — the request
becomes APPROVED with that token id, the participant record gets the
token id and approved=true, the token record gets the address as owner
and available=false, the three writes land together and no other key
changes. -/
theorem approve_token_lowest_index {H : String → String} {s : Store}
    {c : Caller} {na : String} {r : TokenRequest} {p : Participant}
    (hH : HexDigest H) (hr : Reach0 H s) (hmsp : c.msp = "Org1MSP")
    (hreq : getS s ("tokenrequest_" ++ na) = some (Val.tokReq r))
    (hpend : r.Status = "PENDING")
    (hpart : getS s na = some (Val.part p))
    (hwf : ∀ x ∈ tokenKeyStrings,
      getS s x = none ∨ ∃ t, getS s x = some (Val.tok t)) :
    ((∀ x ∈ tokenKeyStrings, availBool s x = false) →
      approveTokenRequest c s na = (Except.error "no tokens available", s)) ∧
    (∀ tid l1 l2, tokenKeyStrings = l1 ++ tid :: l2 →
      (∀ x ∈ l1, availBool s x = false) → availBool s tid = true →
      ∃ t, getS s tid = some (Val.tok t) ∧ t.Available = true ∧
        (approveTokenRequest c s na).1 = Except.ok () ∧
        getS (approveTokenRequest c s na).2 ("tokenrequest_" ++ na)
          = some (Val.tokReq { r with Status := "APPROVED", TokenID := tid }) ∧
        getS (approveTokenRequest c s na).2 na
          = some (Val.part { p with TokenID := tid, Approved := true }) ∧
        getS (approveTokenRequest c s na).2 tid
          = some (Val.tok { t with Owner := na, Available := false }) ∧
        ∀ k, k ≠ "tokenrequest_" ++ na → k ≠ na → k ≠ tid →
          getS (approveTokenRequest c s na).2 k = getS s k) := by
  constructor
  · intro hall
    have hfa : findAvailableToken s = Except.ok "" := by
      unfold findAvailableToken
      exact findAvailTok_none s tokenKeyStrings hwf hall
    unfold approveTokenRequest
    rw [if_neg (not_ne_iff.mpr hmsp)]
    dsimp only
    rw [hreq]
    dsimp only
    simp only [asTokenRequestD]
    rw [if_neg (not_ne_iff.mpr hpend), hfa]
    dsimp only
    rw [if_pos rfl]
  · intro tid l1 l2 hdec hno htid
    have hmem : tid ∈ tokenKeyStrings := by
      rw [hdec]
      exact List.mem_append_right _ (List.mem_cons_self _ _)
    have hne_tid : tid ≠ "" := tokenKey_ne_empty tid hmem
    have hfa : findAvailableToken s = Except.ok tid := by
      unfold findAvailableToken
      rw [hdec]
      refine findAvailTok_first s l1 l2 tid ?_ hno htid
      intro x hx
      refine hwf x ?_
      rw [hdec]
      exact List.mem_append_left _ hx
    rcases availBool_true_elim htid with ⟨t, ht, hav⟩
    have hreq_na : ("tokenrequest_" ++ na : String) ≠ na :=
      pref_append_ne_self "tokenrequest_" na (by decide)
    have hreq_tid : ("tokenrequest_" ++ na : String) ≠ tid :=
      tokenrequest_ne_tokenKey na tid hmem
    have hna_tk : na ∉ tokenKeyStrings := by
      intro hm
      rcases hwf na hm with hnone | ⟨t2, ht2v⟩
      · rw [hpart] at hnone
        cases hnone
      · exact Val.noConfusion (vals_agree hpart ht2v)
    have hna_tid : na ≠ tid := fun e => hna_tk (by rw [e]; exact hmem)
    unfold approveTokenRequest
    rw [if_neg (not_ne_iff.mpr hmsp)]
    dsimp only
    rw [hreq]
    dsimp only
    simp only [asTokenRequestD]
    rw [if_neg (not_ne_iff.mpr hpend), hfa]
    dsimp only
    rw [if_neg hne_tid]
    have hp1 : getS (putS s ("tokenrequest_" ++ na)
        (Val.tokReq { r with Status := "APPROVED", TokenID := tid })) na
        = some (Val.part p) := by
      rw [getS_putS_ne _ _ _ _ hreq_na.symm]
      exact hpart
    rw [hp1]
    dsimp only
    simp only [asParticipantD]
    have ht2 : getS (putS (putS s ("tokenrequest_" ++ na)
        (Val.tokReq { r with Status := "APPROVED", TokenID := tid })) na
        (Val.part { p with TokenID := tid, Approved := true })) tid
        = some (Val.tok t) := by
      rw [getS_putS_ne _ _ _ _ hna_tid.symm, getS_putS_ne _ _ _ _ hreq_tid.symm]
      exact ht
    rw [ht2]
    dsimp only
    simp only [asTokenD]
    refine ⟨t, ht, hav, trivial, ?_, ?_, ?_, ?_⟩
    · rw [getS_putS_ne _ _ _ _ hreq_tid, getS_putS_ne _ _ _ _ hreq_na,
        getS_putS_same]
    · rw [getS_putS_ne _ _ _ _ hna_tid, getS_putS_same]
    · rw [getS_putS_same]
    · intro k hk1 hk2 hk3
      rw [getS_putS_ne _ _ _ _ hk3, getS_putS_ne _ _ _ _ hk2,
        getS_putS_ne _ _ _ _ hk1]

/-- Witness for C6: on a reachable hex-digest ledger where participant A
(address `aAddr`) holds a PENDING token request and all 25 tokens are
still available, approval allocates exactly token_1. -/
theorem approve_token_lowest_index_witness :
    ∃ t, getS wA2 "token_1" = some (Val.tok t) ∧ t.Available = true ∧
      (approveTokenRequest adminCaller wA2 aAddr).1 = Except.ok () ∧
      getS (approveTokenRequest adminCaller wA2 aAddr).2 ("tokenrequest_" ++ aAddr)
        = some (Val.tokReq
            { (⟨"tokenrequest_" ++ aAddr, aAddr, "PENDING", ""⟩ : TokenRequest)
              with Status := "APPROVED", TokenID := "token_1" }) ∧
      getS (approveTokenRequest adminCaller wA2 aAddr).2 aAddr
        = some (Val.part
            { (⟨"A", aAddr, "cid", false, "pw", "US", "", []⟩ : Participant)
              with TokenID := "token_1", Approved := true }) ∧
      getS (approveTokenRequest adminCaller wA2 aAddr).2 "token_1"
        = some (Val.tok { t with Owner := aAddr, Available := false }) ∧
      ∀ k, k ≠ "tokenrequest_" ++ aAddr → k ≠ aAddr → k ≠ "token_1" →
        getS (approveTokenRequest adminCaller wA2 aAddr).2 k = getS wA2 k := by
  have hreach : Reach0 hexH wA2 :=
    ReachFrom.step (ReachFrom.step (ReachFrom.step ReachFrom.refl (Step.init []))
        (Step.submitReg true initState adminCaller "A" "pw" "US"))
      (Step.reqTok true wA1 "A" aAddr "pw" "US")
  have hwf : ∀ x ∈ tokenKeyStrings,
      getS wA2 x = none ∨ ∃ t, getS wA2 x = some (Val.tok t) := by
    have hk : ∀ x ∈ tokenKeyStrings,
        getS wA2 x = some (Val.tok ⟨x, "", true, 0, []⟩) := by decide
    exact fun x hx => Or.inr ⟨_, hk x hx⟩
  exact (@approve_token_lowest_index hexH wA2 adminCaller aAddr
      ⟨"tokenrequest_" ++ aAddr, aAddr, "PENDING", ""⟩
      ⟨"A", aAddr, "cid", false, "pw", "US", "", []⟩
      hexH_digest hreach rfl (by rfl) rfl (by rfl) hwf).2 "token_1" []
    ["token_2", "token_3", "token_4", "token_5", "token_6", "token_7",
     "token_8", "token_9", "token_10", "token_11", "token_12", "token_13",
     "token_14", "token_15", "token_16", "token_17", "token_18", "token_19",
     "token_20", "token_21", "token_22", "token_23", "token_24", "token_25"]
    (by decide) (fun x hx => absurd hx (List.not_mem_nil x)) (by rfl)

/-- C7 (confirmed, with the record context the claim presumes): for an
unapproved customer mint request (a `custmintreq_`-prefixed key holding a
MintRequest) of amount A on a token whose pool is M and whose owner
equals the supplied owner address, with the registered customer record in
place: if A > M the operation fails with the InsufficientFunds message
and the store is unchanged; if A ≤ M the pool becomes M − A, the
customer\'s balance increases by A, the request is marked approved, the
writes land together and no other key changes. -/
theorem customer_mint_conservation {H : String → String} {s : Store}
    {reqID owner : String} {m : MintRequest} {t : Token} {cu : Customer}
    (hH : HexDigest H) (hr : Reach0 H s)
    (hpre : hasPref "custmintreq_" reqID)
    (hreq : getS s reqID = some (Val.mintReq m))
    (hnap : m.Approved = false)
    (htok : getS s m.TokenID = some (Val.tok t))
    (howner : t.Owner = owner)
    (hcu : getS s ("customer_" ++ m.RequestedBy ++ "_" ++ m.TokenID)
      = some (Val.cust cu)) :
    (t.Minted < m.Amount →
      approveCustomerMint s reqID owner
        = (Except.error (custMintInsufficientMsg t.Minted m.Amount), s)) ∧
    (¬ t.Minted < m.Amount →
      (approveCustomerMint s reqID owner).1 = Except.ok () ∧
      getS (approveCustomerMint s reqID owner).2 reqID
        = some (Val.mintReq { m with Approved := true }) ∧
      getS (approveCustomerMint s reqID owner).2 m.TokenID
        = some (Val.tok { t with Minted := t.Minted - m.Amount }) ∧
      getS (approveCustomerMint s reqID owner).2
          ("customer_" ++ m.RequestedBy ++ "_" ++ m.TokenID)
        = some (Val.cust { cu with Balance := cu.Balance + m.Amount }) ∧
      ∀ k, k ≠ reqID → k ≠ m.TokenID →
        k ≠ "customer_" ++ m.RequestedBy ++ "_" ++ m.TokenID →
        getS (approveCustomerMint s reqID owner).2 k = getS s k) := by
  have hrt : m.TokenID ≠ reqID :=
    getS_ne_of_vals htok hreq (fun e => Val.noConfusion e)
  have hck_tid : ("customer_" ++ m.RequestedBy ++ "_" ++ m.TokenID) ≠ m.TokenID :=
    getS_ne_of_vals hcu htok (fun e => Val.noConfusion e)
  have hck_req : ("customer_" ++ m.RequestedBy ++ "_" ++ m.TokenID) ≠ reqID :=
    getS_ne_of_vals hcu hreq (fun e => Val.noConfusion e)
  have hap2 : ¬ m.Approved = true := by
    rw [hnap]
    exact fun e => Bool.noConfusion e
  constructor
  · intro hlt
    unfold approveCustomerMint
    rw [hreq]
    dsimp only
    simp only [decMintRequest]
    try dsimp only
    rw [htok]
    dsimp only
    simp only [decToken]
    try dsimp only
    rw [if_neg (not_ne_iff.mpr howner), if_neg hap2, if_pos hlt]
  · intro hlt
    unfold approveCustomerMint
    rw [hreq]
    dsimp only
    simp only [decMintRequest]
    try dsimp only
    rw [htok]
    dsimp only
    simp only [decToken]
    try dsimp only
    rw [if_neg (not_ne_iff.mpr howner), if_neg hap2, if_neg hlt]
    have hcu1 : getS (putS (putS s reqID (Val.mintReq { m with Approved := true }))
        m.TokenID (Val.tok { t with Minted := t.Minted - m.Amount }))
        ("customer_" ++ m.RequestedBy ++ "_" ++ m.TokenID)
        = some (Val.cust cu) := by
      rw [getS_putS_ne _ _ _ _ hck_tid, getS_putS_ne _ _ _ _ hck_req]
      exact hcu
    rw [hcu1]
    dsimp only
    simp only [decCustomer]
    try dsimp only
    refine ⟨trivial, ?_, ?_, ?_, ?_⟩
    · rw [getS_putS_ne _ _ _ _ hck_req.symm, getS_putS_ne _ _ _ _ hrt.symm,
        getS_putS_same]
    · rw [getS_putS_ne _ _ _ _ hck_tid.symm, getS_putS_same]
    · rw [getS_putS_same]
    · intro k hk1 hk2 hk3
      rw [getS_putS_ne _ _ _ _ hk3, getS_putS_ne _ _ _ _ hk2,
        getS_putS_ne _ _ _ _ hk1]

/-- Witness for C7: on the reachable hex-digest ledger where custC is a
registered customer of token_1 (pool 50) and has an unapproved mint
request of 30, approval moves 30 from the pool to custC\'s balance. -/
theorem customer_mint_conservation_witness :
    getS wA8 ("customer_" ++ "custC" ++ "_" ++ "token_1")
      = some (Val.cust ⟨"custC", "C", "cpw", "token_1", true, 0, [], []⟩) ∧
    ((approveCustomerMint wA8 "custmintreq_custC_token_1" aAddr).1
        = Except.ok () ∧
      getS (approveCustomerMint wA8 "custmintreq_custC_token_1" aAddr).2
          "custmintreq_custC_token_1"
        = some (Val.mintReq { (⟨"custmintreq_custC_token_1", "token_1",
            "custC", 30, false⟩ : MintRequest) with Approved := true }) ∧
      getS (approveCustomerMint wA8 "custmintreq_custC_token_1" aAddr).2
          "token_1"
        = some (Val.tok { (⟨"token_1", aAddr, false, 50, []⟩ : Token) with
            Minted := 50 - 30 }) ∧
      getS (approveCustomerMint wA8 "custmintreq_custC_token_1" aAddr).2
          ("customer_" ++ "custC" ++ "_" ++ "token_1")
        = some (Val.cust
            { (⟨"custC", "C", "cpw", "token_1", true, 0, [], []⟩ : Customer)
              with Balance := 0 + 30 }) ∧
      ∀ k, k ≠ "custmintreq_custC_token_1" → k ≠ "token_1" →
        k ≠ "customer_" ++ "custC" ++ "_" ++ "token_1" →
        getS (approveCustomerMint wA8 "custmintreq_custC_token_1" aAddr).2 k
          = getS wA8 k) := by
  have h0 : Reach0 hexH initState := ReachFrom.step ReachFrom.refl (Step.init [])
  have h1 : Reach0 hexH wA1 :=
    ReachFrom.step h0 (Step.submitReg true initState adminCaller "A" "pw" "US")
  have h2 : Reach0 hexH wA2 :=
    ReachFrom.step h1 (Step.reqTok true wA1 "A" aAddr "pw" "US")
  have h3 : Reach0 hexH wA3 :=
    ReachFrom.step h2 (Step.appTok true wA2 adminCaller aAddr)
  have h4 : Reach0 hexH wA4 :=
    ReachFrom.step h3 (Step.reqMint true wA3 adminCaller aAddr "pw" 50)
  have h5 : Reach0 hexH wA5 :=
    ReachFrom.step h4
      (Step.appMint true wA4 adminCaller ("mintrequest_token_1_" ++ aAddr))
  have h6 : Reach0 hexH wA6 :=
    ReachFrom.step h5 (Step.regCust true wA5 "custC" "C" "cpw" "token_1")
  have h7 : Reach0 hexH wA7 :=
    ReachFrom.step h6 (Step.appCustReg true wA6 "custreq_custC_token_1" aAddr)
  have h8 : Reach0 hexH wA8 :=
    ReachFrom.step h7 (Step.custReqMint true wA7 "custC" "token_1" 30)
  refine ⟨by rfl, ?_⟩
  exact (@customer_mint_conservation hexH wA8 "custmintreq_custC_token_1" aAddr
      ⟨"custmintreq_custC_token_1", "token_1", "custC", 30, false⟩
      ⟨"token_1", aAddr, false, 50, []⟩
      ⟨"custC", "C", "cpw", "token_1", true, 0, [], []⟩
      hexH_digest h8 ⟨"custC_token_1", rfl⟩ (by rfl) rfl (by rfl) rfl (by rfl)).2
    (by decide)

theorem pinv_sum (s : Store) (hp : Pinv s) :
    countAvail s + countOwned s = maxTokens := by
  have hcomp : ∀ k ∈ tokenKeyStrings, ownedBool s k = !(availBool s k) := by
    intro k hk
    rcases hp k hk with ⟨t, ht, hcase⟩
    rcases hcase with ⟨ha, ho⟩ | ⟨ha, ho⟩
    · simp [ownedBool, availBool, ht, ha, ho]
    · simp [ownedBool, availBool, ht, ha, ho]
  have hsum := filter_complement_length tokenKeyStrings
    (fun k => availBool s k) (fun k => ownedBool s k) hcomp
  unfold countAvail countOwned
  rw [hsum]
  decide

theorem pinv_initLedger (s : Store) : Pinv (initLedger s).2 := by
  intro k hk
  unfold initLedger
  dsimp only
  rw [getS_foldl_putS (fun tid => Val.tok ⟨tid, "", true, 0, []⟩)
    tokenKeyStrings tokenKeyStrings_nodup s k, if_pos hk]
  exact ⟨_, rfl, Or.inl ⟨rfl, rfl⟩⟩

theorem pinv_approveTokenRequest (c : Caller) (s : Store) (na : String)
    (p : Participant) (hp : Pinv s) (hpart : getS s na = some (Val.part p))
    (hna : na ≠ "") :
    Pinv (approveTokenRequest c s na).2 := by
  unfold approveTokenRequest
  by_cases hadm : c.msp ≠ "Org1MSP"
  · rw [if_pos hadm]
    exact hp
  · rw [if_neg hadm]
    dsimp only
    cases hv : getS s ("tokenrequest_" ++ na) with
    | none => exact hp
    | some v =>
      dsimp only
      by_cases hst : (asTokenRequestD v).Status ≠ "PENDING"
      · rw [if_pos hst]
        exact hp
      · rw [if_neg hst]
        cases hfa : findAvailableToken s with
        | error e => exact hp
        | ok tokenID =>
          dsimp only
          by_cases htid : tokenID = ""
          · rw [if_pos htid]
            exact hp
          · rw [if_neg htid]
            rcases findAvailTok_ok s tokenKeyStrings tokenID hfa htid with
              ⟨hmem, t0, ht0, hav⟩
            have hna_tk : na ∉ tokenKeyStrings := by
              intro hm
              rcases hp na hm with ⟨t2, ht2, _⟩
              exact Val.noConfusion (vals_agree hpart ht2)
            have hreq_na : ("tokenrequest_" ++ na : String) ≠ na :=
              pref_append_ne_self "tokenrequest_" na (by decide)
            have hreq_tid : ("tokenrequest_" ++ na : String) ≠ tokenID :=
              tokenrequest_ne_tokenKey na tokenID hmem
            have hna_tid : na ≠ tokenID := fun e => hna_tk (by rw [e]; exact hmem)
            have hp1 : getS (putS s ("tokenrequest_" ++ na)
                (Val.tokReq { asTokenRequestD v with
                  Status := "APPROVED", TokenID := tokenID })) na
                = some (Val.part p) := by
              rw [getS_putS_ne _ _ _ _ hreq_na.symm]
              exact hpart
            rw [hp1]
            dsimp only
            have ht2 : getS (putS (putS s ("tokenrequest_" ++ na)
                (Val.tokReq { asTokenRequestD v with
                  Status := "APPROVED", TokenID := tokenID })) na
                (Val.part { asParticipantD (Val.part p) with
                  TokenID := tokenID, Approved := true })) tokenID
                = some (Val.tok t0) := by
              rw [getS_putS_ne _ _ _ _ hna_tid.symm,
                getS_putS_ne _ _ _ _ hreq_tid.symm]
              exact ht0
            rw [ht2]
            dsimp only
            intro k hk
            by_cases hk1 : k = tokenID
            · subst hk1
              rw [getS_putS_same]
              exact ⟨_, rfl, Or.inr ⟨rfl, hna⟩⟩
            · rw [getS_putS_ne _ _ _ _ hk1]
              have hk2 : k ≠ na := fun e => hna_tk (e ▸ hk)
              rw [getS_putS_ne _ _ _ _ hk2]
              have hk3 : k ≠ "tokenrequest_" ++ na := by
                intro e
                exact absurd hk
                  (by rw [e]
                      exact pref_notin_tokenKeys _ _ tokenrequest_ne_tokenKey)
              rw [getS_putS_ne _ _ _ _ hk3]
              exact hp k hk

/-- C5 (corrected): what survives of the pool invariant.  InitLedger
establishes, from any state, the partition of the 25 token records —
each exists and is either available with an empty owner or unavailable
with exactly one non-empty owner — with count(available) +
count(owned) = 25; the partition implies the conservation equation; and
ApproveTokenRequest, invoked for a (non-empty) participant address,
preserves the partition, converting at most one available token to
owned.  The claim's global form is false: re-initialization lets the
same token be assigned to two participants (the duplicate-assignment
counterexample), and approval operations invoked directly with a token's
key as the request id overwrite or deform the token record, so the
partition is not an invariant of arbitrary invocation sequences. -/
theorem token_pool_conservation :
    (Pinv initState ∧ countAvail initState + countOwned initState = maxTokens) ∧
    (∀ s, Pinv s → countAvail s + countOwned s = maxTokens) ∧
    (∀ s, Pinv (initLedger s).2) ∧
    (∀ c s na p, Pinv s → getS s na = some (Val.part p) → na ≠ "" →
      Pinv (approveTokenRequest c s na).2) := by
  have hinit : Pinv initState := by
    intro k hk
    rw [getS_initState, if_pos hk]
    exact ⟨_, rfl, Or.inl ⟨rfl, rfl⟩⟩
  exact ⟨⟨hinit, pinv_sum initState hinit⟩, pinv_sum,
    fun s => pinv_initLedger s,
    fun c s na p hp hpart hna => pinv_approveTokenRequest c s na p hp hpart hna⟩

/-- Witness for C5: on the reachable ledger wA2 (participant A registered,
all 25 tokens available) the allocation of token_1 to A keeps the pool
partitioned and the conservation sum at 25. -/
theorem token_pool_conservation_witness :
    Pinv (approveTokenRequest adminCaller wA2 aAddr).2 ∧
    countAvail (approveTokenRequest adminCaller wA2 aAddr).2
      + countOwned (approveTokenRequest adminCaller wA2 aAddr).2 = maxTokens := by
  have hp : Pinv wA2 := by
    have hk : ∀ x ∈ tokenKeyStrings,
        getS wA2 x = some (Val.tok ⟨x, "", true, 0, []⟩) := by decide
    exact fun k hkm => ⟨_, hk k hkm, Or.inl ⟨rfl, rfl⟩⟩
  have h4 := (token_pool_conservation).2.2.2 adminCaller wA2 aAddr
    ⟨"A", aAddr, "cid", false, "pw", "US", "", []⟩ hp (by rfl) (by decide)
  exact ⟨h4, (token_pool_conservation).2.1 _ h4⟩
